import Mathlib

/-!
Verification of the Apple Pay / Bancontact workbook-refresh scripts.

The development shallowly embeds the two core routines of the repository
(the numeric normalizer `to_num` and the label-anchored Reporting-Month
updaters `upsert_reporting_month` / `set_reporting_month`), plus the
`write_dataframe_to_sheet` helper and the control flow of the three `main`
entry points, and proves or refutes the specified properties.

Modelling conventions:
- Python strings are `List Char`; Python `str.strip` / `str.lower` /
  `str.replace` / `in` become the corresponding list operations.
- Python floats are `NumF`: an exact rational, or a NaN / signed-infinity
  marker.  Arithmetic on in-range values is modelled exactly.
- A worksheet is a `Grid`: an association list of (row, column)-indexed
  cell values (absent = empty, as read back by openpyxl), together with the
  list of merged ranges.  `max_row` / `max_column` are derived from the
  stored cells, with openpyxl's minimum of 1.
-/

/-! ### Python string primitives -/

/-- Whitespace as recognised by Python's `str.strip()` and `float()`
(ASCII whitespace plus the no-break space, the only non-ASCII whitespace
relevant to these scripts). -/
def pyIsWs (c : Char) : Bool :=
  c = ' ' || c = '\t' || c = '\n' || c = '\r' || c = '\x0b' || c = '\x0c' || c = '\u00A0'

/-- Python `str.lstrip()`. -/
def lstripWs (l : List Char) : List Char := l.dropWhile pyIsWs

/-- Python `str.rstrip()`. -/
def rstripWs (l : List Char) : List Char := (l.reverse.dropWhile pyIsWs).reverse

/-- Python `str.strip()`. -/
def pyStrip (l : List Char) : List Char := lstripWs (rstripWs l)

/-- Python `str.lower()` (the labels involved are ASCII). -/
def lowerList (l : List Char) : List Char := l.map Char.toLower

/-- Python substring containment `pat in s`. -/
def isSubstr (pat : List Char) : List Char → Bool
  | [] => pat.isEmpty
  | c :: t => pat.isPrefixOf (c :: t) || isSubstr pat t

/-! ### Python floats -/

/-- A Python float: an exact finite rational, NaN, or a signed infinity
(`inf true` is negative infinity). -/
inductive NumF where
  | finite (q : ℚ)
  | nan
  | inf (negSign : Bool)
deriving DecidableEq, Repr

def NumF.isNanB : NumF → Bool
  | .nan => true
  | _ => false

def NumF.isInfB : NumF → Bool
  | .inf _ => true
  | _ => false

def NumF.isFiniteB : NumF → Bool
  | .finite _ => true
  | _ => false

/-- Python unary negation on floats. -/
def NumF.negF : NumF → NumF
  | .finite q => .finite (-q)
  | .nan => .nan
  | .inf b => .inf (!b)

/-- Python `x / 100.0` on floats. -/
def NumF.div100 : NumF → NumF
  | .finite q => .finite (q / 100)
  | x => x

/-! ### Python `float(string)` -/

def isDigitChar (c : Char) : Bool := '0' ≤ c && c ≤ '9'

def digitsVal (l : List Char) : ℕ :=
  l.foldl (fun a c => 10 * a + (c.toNat - '0'.toNat)) 0

/-- Consume an optional leading sign; `true` means negative. -/
def parseSign : List Char → Bool × List Char
  | '+' :: t => (false, t)
  | '-' :: t => (true, t)
  | l => (false, l)

/-- Value of an integer part and a fractional part, both digit strings. -/
def mantissaVal (ip fp : List Char) : ℚ :=
  (digitsVal ip : ℚ) + (digitsVal fp : ℚ) / ((10 : ℚ) ^ fp.length)

/-- Parse an optional exponent suffix after the mantissa; the whole rest of
the input must be consumed, otherwise the conversion fails. -/
def withExp (m : ℚ) : List Char → Option ℚ
  | [] => some m
  | e :: t =>
    if e = 'e' || e = 'E' then
      let (negE, t2) := parseSign t
      let ed := t2.takeWhile isDigitChar
      let rest := t2.dropWhile isDigitChar
      if ed.isEmpty || !rest.isEmpty then none
      else some (if negE then m / (10 : ℚ) ^ digitsVal ed else m * (10 : ℚ) ^ digitsVal ed)
    else none

/-- Parse an unsigned decimal literal `digits [. digits] [exponent]`; at
least one mantissa digit is required. -/
def parseUnsigned (l : List Char) : Option ℚ :=
  let ip := l.takeWhile isDigitChar
  let r1 := l.dropWhile isDigitChar
  match r1 with
  | '.' :: t =>
    let fp := t.takeWhile isDigitChar
    let r2 := t.dropWhile isDigitChar
    if ip.isEmpty && fp.isEmpty then none else withExp (mantissaVal ip fp) r2
  | _ => if ip.isEmpty then none else withExp (mantissaVal ip []) r1

/-- Python's `float(s)` string conversion: surrounding whitespace is
stripped, an optional sign is read, and the remainder is either an
`inf` / `infinity` / `nan` literal (case-insensitive) or a decimal literal.
`none` models a raised `ValueError`. -/
def pyFloat (l : List Char) : Option NumF :=
  let t := pyStrip l
  let (neg, t1) := parseSign t
  let tl := lowerList t1
  if tl = "inf".data || tl = "infinity".data then some (.inf neg)
  else if tl = "nan".data then some .nan
  else
    match parseUnsigned t1 with
    | some q => some (.finite (if neg then -q else q))
    | none => none

/-! ### The numeric normalizer `to_num` -/

/-- A value passed to `to_num`: Python `None`, a string, an int, or a
float. -/
inductive PyVal where
  | none
  | str (s : List Char)
  | int (n : ℤ)
  | float (f : NumF)
deriving DecidableEq, Repr

/-- The replacement chain
`s.replace("%","").replace("€","").replace(" "," ").replace(" ","")`. -/
def cleanNum (l : List Char) : List Char :=
  ((((l.filter (fun c => !(c = '%'))).filter (fun c => !(c = '€'))).map
    (fun c => if c = '\u00A0' then ' ' else c)).filter (fun c => !(c = ' ')))

/-- The decimal-separator disambiguation: at least one comma and no dot
means the comma is the decimal point, otherwise commas are thousands
separators and are dropped. -/
def commaFix (l : List Char) : List Char :=
  if 0 < l.count ',' ∧ l.count '.' = 0 then
    l.map (fun c => if c = ',' then '.' else c)
  else
    l.filter (fun c => !(c = ','))

/-- The textual pipeline of `to_num` before the `float()` call: strip,
detect and peel a parenthesised negative, detect a percent sign, remove
percent / euro / space characters and fix the comma.  Returns
(negative, percent, cleaned string). -/
def to_num_pre (s0 : List Char) : Bool × Bool × List Char :=
  let s := pyStrip s0
  let neg := decide (s.head? = some '(') && decide (s.getLast? = some ')')
  let s1 := if neg then (s.drop 1).dropLast else s
  let pct := s1.contains '%'
  (neg, pct, commaFix (cleanNum s1))

/-- The arithmetic tail of `to_num` after a successful `float()` call:
negate for a parenthesised value, divide by 100 for a percentage, and
guard against NaN / infinity. -/
def applySignPct (p : Bool × Bool × List Char) (x : NumF) : NumF :=
  let x1 := if p.1 then x.negF else x
  let x2 := if p.2.1 then x1.div100 else x1
  if x2.isNanB || x2.isInfB then .finite 0 else x2

/-- The string branch of `to_num`: clean the text, call `float()`, apply
the sign and the percent scaling; any conversion failure yields 0.0. -/
def to_num_str (s0 : List Char) : NumF :=
  if pyStrip s0 = [] then .finite 0
  else
    match pyFloat (to_num_pre s0).2.2 with
    | Option.none => .finite 0
    | some x => applySignPct (to_num_pre s0) x

instance {ε α : Type} [DecidableEq ε] [DecidableEq α] : DecidableEq (Except ε α)
  | .ok a, .ok b =>
    if h : a = b then .isTrue (by rw [h]) else .isFalse (by intro hc; cases hc; exact h rfl)
  | .ok _, .error _ => .isFalse (by intro hc; cases hc)
  | .error _, .ok _ => .isFalse (by intro hc; cases hc)
  | .error a, .error b =>
    if h : a = b then .isTrue (by rw [h]) else .isFalse (by intro hc; cases hc; exact h rfl)

/-- CPython's `float(int)` conversion: an int converts exactly when its
magnitude rounds to a finite double, and raises `OverflowError` (modelled
as `Except.error ()`) otherwise.  The largest finite double is
`2^1024 - 2^971`; round-to-nearest-even sends every magnitude at or above
`2^1024 - 2^970` to infinity, so that is the raising threshold. -/
def pyFloatOfInt (n : ℤ) : Except Unit NumF :=
  if n.natAbs < 2 ^ 1024 - 2 ^ 970 then Except.ok (.finite (n : ℚ)) else Except.error ()

/-- The numeric normalizer `to_num` (identical in
`refresh_applepay_belfius.py` and `refresh_bancontact.py`).  In the int
branch the call `float(v)` stands *outside* the `try`, so an
`OverflowError` from an int beyond double range propagates to the caller
(`Except.error ()`); every other branch is total. -/
def to_num (v : PyVal) : Except Unit NumF :=
  match v with
  | .none => .ok (.finite 0)
  | .int n => pyFloatOfInt n
  | .float f => .ok (if f.isNanB || f.isInfB then .finite 0 else f)
  | .str s0 => .ok (to_num_str s0)

/-! ### Worksheets -/

/-- A cell value: text or a number (openpyxl reads empty cells as `None`,
modelled by absence from the cell list). -/
inductive CVal where
  | s (t : List Char)
  | n (q : ℚ)
deriving DecidableEq, Repr

/-- A merged range `min_row..max_row × min_col..max_col`. -/
structure MergeRange where
  minRow : ℕ
  minCol : ℕ
  maxRow : ℕ
  maxCol : ℕ
deriving DecidableEq, Repr

/-- A worksheet: an association list of populated cells (first entry with a
given key wins) and the merged ranges. -/
structure Grid where
  cells : List ((ℕ × ℕ) × CVal)
  merges : List MergeRange
deriving DecidableEq, Repr

/-- Read `ws.cell(row=r, column=c).value`. -/
def getVal (g : Grid) (r c : ℕ) : Option CVal :=
  match g.cells.find? (fun e => e.1.1 == r && e.1.2 == c) with
  | some e => some e.2
  | Option.none => Option.none

/-- Assign `ws.cell(row=r, column=c).value = v`. -/
def setVal (g : Grid) (r c : ℕ) (v : CVal) : Grid :=
  { g with cells := ((r, c), v) :: g.cells }

/-- `ws.max_row`: the largest populated row, at least 1 (as in openpyxl). -/
def Grid.maxRow (g : Grid) : ℕ := g.cells.foldr (fun e a => max e.1.1 a) 1

/-- `ws.max_column`: the largest populated column, at least 1. -/
def Grid.maxCol (g : Grid) : ℕ := g.cells.foldr (fun e a => max e.1.2 a) 1

/-- `cell.coordinate in merged_range`. -/
def inRangeB (mr : MergeRange) (r c : ℕ) : Bool :=
  decide (mr.minRow ≤ r) && decide (r ≤ mr.maxRow) &&
    decide (mr.minCol ≤ c) && decide (c ≤ mr.maxCol)

/-- `_anchor_cell`: the top-left cell of the first merged range containing
the coordinate, or the cell itself. -/
def anchorOf (g : Grid) (r c : ℕ) : ℕ × ℕ :=
  match g.merges.find? (fun mr => inRangeB mr r c) with
  | some mr => (mr.minRow, mr.minCol)
  | Option.none => (r, c)

/-! ### The Reporting-Month updaters -/

/-- The searched label, already lower-cased as in the source. -/
def labelLower : List Char := "reporting month".data

/-- The stamped text `f"Reporting Month: {month_label}"`. -/
def rmFull (month : List Char) : List Char := "Reporting Month: ".data ++ month

/-- The match test of `upsert_reporting_month`:
`isinstance(val, str) and "reporting month" in val.lower()`. -/
def cellMatches (g : Grid) (r c : ℕ) : Bool :=
  match getVal g r c with
  | some (.s t) => isSubstr labelLower (lowerList t)
  | _ => false

/-- The text of a matched cell (only used on cells that hold a string). -/
def cellTextAt (g : Grid) (r c : ℕ) : List Char :=
  match getVal g r c with
  | some (.s t) => t
  | _ => []

/-- Inner loop `for c in range(c0, c0 + fuel)` returning the first `c`
satisfying `p`. -/
def scanRowP (p : ℕ → Bool) : ℕ → ℕ → Option ℕ
  | _, 0 => Option.none
  | c, fuel+1 => if p c then some c else scanRowP p (c+1) fuel

/-- Outer loop `for r in range(1, 1 + fuel)`, scanning each row with
`scanRowP` and returning the first matching coordinate. -/
def scanRowsP (q : ℕ → ℕ → Bool) (maxC : ℕ) : ℕ → ℕ → Option (ℕ × ℕ)
  | _, 0 => Option.none
  | r, fuel+1 =>
    match scanRowP (q r) 1 maxC with
    | some c => some (r, c)
    | Option.none => scanRowsP q maxC (r+1) fuel

/-- The search loop of `upsert_reporting_month`: rows
`1..min(max_row, 10)`, columns `1..min(max_column, 30)`, row-major, first
match wins. -/
def findMatch (g : Grid) : Option (ℕ × ℕ) :=
  scanRowsP (fun r c => cellMatches g r c) (min g.maxCol 30) 1 (min g.maxRow 10)

/-- The update performed at a matched cell `(r, c)`: full replacement at
the matched cell's anchor when its stripped text contains a colon,
otherwise the bare month into the anchor of the cell to the right. -/
def matchStep (g : Grid) (r c : ℕ) (month : List Char) : Grid :=
  if (pyStrip (cellTextAt g r c)).contains ':' then
    setVal g (anchorOf g r c).1 (anchorOf g r c).2 (.s (rmFull month))
  else
    setVal g (anchorOf g r (c + 1)).1 (anchorOf g r (c + 1)).2 (.s month)

/-- `upsert_reporting_month` from `refresh_applepay_belfius.py`: update the
first matching cell, or fall back to writing the full label at A2's merge
anchor. -/
def upsert_reporting_month (g : Grid) (month : List Char) : Grid :=
  match findMatch g with
  | some rc => matchStep g rc.1 rc.2 month
  | Option.none =>
    setVal g (anchorOf g 2 1).1 (anchorOf g 2 1).2 (.s (rmFull month))

/-- The text `str(cell.value).strip()` used by `set_reporting_month` in
`refresh_applepay_belfius_v2.py` for a row-2 cell; a `None` value yields
`""`, and `str()` of a number contains neither letters nor a colon, so it
behaves like `""` for every test the function performs on it. -/
def v2CellText (g : Grid) (c : ℕ) : List Char :=
  match getVal g 2 c with
  | some (.s t) => pyStrip t
  | some (.n _) => []
  | Option.none => []

/-- The match test of `set_reporting_month`:
`"reporting month" in text.lower()`. -/
def v2Matches (g : Grid) (c : ℕ) : Bool :=
  isSubstr labelLower (lowerList (v2CellText g c))

/-- `prev_month_label` as called from `refresh_applepay_belfius_v2.py`:
its first statement evaluates `date.today()`, but that module never
imports `datetime` (its imports are `sys`, `pathlib.Path`, `pandas` and
`openpyxl`), so the name `date` is unbound and every call raises
`NameError` (modelled as `Except.error ()`). -/
def prev_month_label_v2 : Except Unit (List Char) := Except.error ()

/-- The per-worksheet loop body of `set_reporting_month`
(`refresh_applepay_belfius_v2.py`, lines 65–84), translated for
completeness: scan only row 2, columns 1..30; on a match, write the full
label in place when the text contains `:` or the match is in column 1,
otherwise write the month to the right; fall back to A2.  In the real
program this code is unreachable: `set_reporting_month` computes the label
before entering the loop, and that computation raises. -/
def set_reporting_month_row2 (g : Grid) (month : List Char) : Grid :=
  match scanRowP (fun c => v2Matches g c) 1 30 with
  | some c =>
    if (v2CellText g c).contains ':' || c == 1 then
      setVal g (anchorOf g 2 c).1 (anchorOf g 2 c).2 (.s (rmFull month))
    else
      setVal g (anchorOf g 2 (c + 1)).1 (anchorOf g 2 (c + 1)).2 (.s month)
  | Option.none =>
    setVal g (anchorOf g 2 1).1 (anchorOf g 2 1).2 (.s (rmFull month))

/-- `set_reporting_month` (per worksheet) from
`refresh_applepay_belfius_v2.py`: its first statement is
`label = prev_month_label()`, which raises `NameError` (see
`prev_month_label_v2`), so the function aborts before reading or writing
any cell — on every input. -/
def set_reporting_month (g : Grid) : Except Unit Grid :=
  match prev_month_label_v2 with
  | Except.error e => Except.error e
  | Except.ok month => Except.ok (set_reporting_month_row2 g month)

/-! ### Well-formedness of merge data -/

/-- A merged range is in-bounds and non-degenerate (openpyxl ranges have
1-based, ordered bounds). -/
def rangeWFB (mr : MergeRange) : Bool :=
  decide (1 ≤ mr.minRow) && decide (mr.minRow ≤ mr.maxRow) &&
    decide (1 ≤ mr.minCol) && decide (mr.minCol ≤ mr.maxCol)

/-- Two rectangles do not intersect. -/
def rectsDisjointB (a b : MergeRange) : Bool :=
  decide (a.maxRow < b.minRow) || decide (b.maxRow < a.minRow) ||
    decide (a.maxCol < b.minCol) || decide (b.maxCol < a.minCol)

/-- Pairwise disjointness of a list of rectangles. -/
def disjointListB : List MergeRange → Bool
  | [] => true
  | mr :: rest => rest.all (fun x => rectsDisjointB mr x) && disjointListB rest

/-- Every merged range is well-formed and the ranges are pairwise
disjoint, as guaranteed by the xlsx format. -/
def mergesWFB (g : Grid) : Bool :=
  g.merges.all (fun mr => rangeWFB mr) && disjointListB g.merges

/-- The write of the separate-cell branch does not land back on the
matched label cell (it does when the matched cell and its right neighbour
share a merge group whose anchor is the matched cell). -/
def sepOKB (g : Grid) : Bool :=
  match findMatch g with
  | some rc =>
    (pyStrip (cellTextAt g rc.1 rc.2)).contains ':' ||
      decide (anchorOf g rc.1 (rc.2 + 1) ≠ (rc.1, rc.2))
  | Option.none => true

/-- Row-major (lexicographic) order on coordinates. -/
def lexLt (a b : ℕ × ℕ) : Prop := a.1 < b.1 ∨ (a.1 = b.1 ∧ a.2 < b.2)

instance (a b : ℕ × ℕ) : Decidable (lexLt a b) := by
  unfold lexLt
  infer_instance

/-- Cell `(r, c)` matches and is the row-major-first match of the
10-row × 30-column search window. -/
def specFirstMatch (g : Grid) (r c : ℕ) : Prop :=
  1 ≤ r ∧ r ≤ 10 ∧ 1 ≤ c ∧ c ≤ 30 ∧ cellMatches g r c = true ∧
    ∀ r', r' ≤ 10 → ∀ c', c' ≤ 30 → 1 ≤ r' → 1 ≤ c' → lexLt (r', c') (r, c) →
      cellMatches g r' c' = false

instance (g : Grid) (r c : ℕ) : Decidable (specFirstMatch g r c) := by
  unfold specFirstMatch
  infer_instance

/-! ### Concrete grids used to exercise the updaters -/

/-- A grid whose only label occurrence is at row 1, column 1. -/
def cxGridRow1 : Grid := { cells := [((1, 1), .s "Reporting Month".data)], merges := [] }

/-- A grid whose only label occurrence is at row 2, column 1, without a
colon. -/
def cxGridCol1 : Grid := { cells := [((2, 1), .s "Reporting Month".data)], merges := [] }

/-- A colon-free label at (2, 1) whose right neighbour (2, 2) lies in a
vertical merge B1:B2 anchored at (1, 2). -/
def cxGridMerge : Grid :=
  { cells := [((2, 1), .s "Reporting Month".data)], merges := [⟨1, 2, 2, 2⟩] }

/-- A colon-free label at (1, 1) merged with its right neighbour (1, 2)
in A1:B1, so the right cell's anchor is the label cell itself. -/
def cxGridMergeSelf : Grid :=
  { cells := [((1, 1), .s "Reporting Month".data)], merges := [⟨1, 1, 1, 2⟩] }

/-- An ordinary month label. -/
def cxMonth : List Char := "May 2025".data

/-- A pathological replacement that itself contains the label and a
colon. -/
def cxMonthLabel : List Char := "reporting month: x".data

/-- A grid whose label cell carries the month in the same cell. -/
def cxGridDelim : Grid :=
  { cells := [((1, 1), .s "Reporting Month: August 2025".data)], merges := [] }

/-- A grid with a colon-free label at row 2, column 2. -/
def cxGridRow2Col2 : Grid :=
  { cells := [((2, 2), .s "Reporting Month".data)], merges := [] }

/-- A grid with no cells at all. -/
def cxGridEmpty : Grid := { cells := [], merges := [] }

/-- An empty grid whose top-left 2 × 2 block A1:B2 is merged. -/
def cxGridMergedA1B2 : Grid := { cells := [], merges := [⟨1, 1, 2, 2⟩] }

/-! ### Control flow of the three entry points -/

/-- Outcome of one run: the exit code, whether the workbook file was
(successfully) opened and whether it was saved (i.e. changed on disk). -/
structure RunOutcome where
  exitCode : ℕ
  openedWorkbook : Bool
  savedWorkbook : Bool
deriving DecidableEq, Repr

/-- The Data_* sheets `refresh_applepay_belfius.py` requires CSVs for. -/
def belfius_sheet_keys : List String :=
  ["Data_Metrics", "Data_Declines", "Data_Fraud", "Data_Usage", "Data_Merchant"]

/-- The Data_* sheets `refresh_bancontact.py` requires CSVs for. -/
def bancontact_sheet_keys : List String :=
  ["Data_Metrics", "Data_Declines", "Data_Usage", "Data_Merchant"]

/-- The CSV file names `refresh_applepay_belfius_v2.py` requires. -/
def v2_csv_names : List String :=
  ["Metrics.csv", "Decline.csv", "Fraud.csv", "Usage.csv", "Merchant.csv"]

/-- Control flow of `main` in `refresh_applepay_belfius.py`: resolve CSVs
and return 1 when any is missing, then check the workbook exists (1), then
open it (2 on failure), mutate in memory, and save (2 on `PermissionError`,
leaving the file unchanged). -/
def main_belfius (csvFound : String → Bool) (wbExists openOk saveOk : Bool) : RunOutcome :=
  if !(belfius_sheet_keys.filter (fun k => !csvFound k)).isEmpty then ⟨1, false, false⟩
  else if !wbExists then ⟨1, false, false⟩
  else if !openOk then ⟨2, false, false⟩
  else if !saveOk then ⟨2, true, false⟩
  else ⟨0, true, true⟩

/-- Control flow of `main` in `refresh_bancontact.py` (every failure exits
with code 1). -/
def main_bancontact (csvFound : String → Bool) (wbExists openOk saveOk : Bool) : RunOutcome :=
  if !(bancontact_sheet_keys.filter (fun k => !csvFound k)).isEmpty then ⟨1, false, false⟩
  else if !wbExists then ⟨1, false, false⟩
  else if !openOk then ⟨1, false, false⟩
  else if !saveOk then ⟨1, true, false⟩
  else ⟨0, true, true⟩

/-- Control flow of `main` in `refresh_applepay_belfius_v2.py` (its
`load_workbook` call has no error handling, so only the guarded paths
appear). -/
def main_v2 (csvFound : String → Bool) (wbExists saveOk : Bool) : RunOutcome :=
  if !(v2_csv_names.filter (fun k => !csvFound k)).isEmpty then ⟨1, false, false⟩
  else if !wbExists then ⟨1, false, false⟩
  else if !saveOk then ⟨1, true, false⟩
  else ⟨0, true, true⟩

/-! ### write_dataframe_to_sheet -/

/-- A raw-data worksheet: populated cells and the hidden flag. -/
structure Sheet where
  cells : List ((ℕ × ℕ) × CVal)
  hidden : Bool
deriving DecidableEq, Repr

/-- Read a cell from a raw cell list. -/
def getCellsVal (cells : List ((ℕ × ℕ) × CVal)) (r c : ℕ) : Option CVal :=
  match cells.find? (fun e => e.1.1 == r && e.1.2 == c) with
  | some e => some e.2
  | Option.none => Option.none

/-- Read a sheet cell. -/
def getSVal (s : Sheet) (r c : ℕ) : Option CVal := getCellsVal s.cells r c

/-- One `ws.cell(row=r, column=c, value=v)` write; assigning `None` leaves
the cell empty. -/
def setSCell (cells : List ((ℕ × ℕ) × CVal)) (r c : ℕ) (v : Option CVal) :
    List ((ℕ × ℕ) × CVal) :=
  match v with
  | some w => ((r, c), w) :: cells
  | Option.none => cells.filter (fun e => !(e.1.1 == r && e.1.2 == c))

/-- A pandas DataFrame: stringified column names and rows of optional cell
values (`None`/NaN entries are empty). -/
structure DataFrame where
  columns : List (List Char)
  rows : List (List (Option CVal))

/-- The header-writing loop: `ws.cell(row=1, column=j, value=str(col))`
for `j = j0, j0+1, ...`. -/
def headerCells : ℕ → List (List Char) → List ((ℕ × ℕ) × Option CVal)
  | _, [] => []
  | j, col :: rest => ((1, j), some (.s col)) :: headerCells (j+1) rest

/-- One data row: `ws.cell(row=r, column=j, value=val)` for
`j = c0, c0+1, ...`. -/
def rowCells (r : ℕ) : ℕ → List (Option CVal) → List ((ℕ × ℕ) × Option CVal)
  | _, [] => []
  | c, v :: rest => ((r, c), v) :: rowCells r (c+1) rest

/-- The data-writing loop over rows `r0, r0+1, ...`. -/
def dataCells : ℕ → List (List (Option CVal)) → List ((ℕ × ℕ) × Option CVal)
  | _, [] => []
  | r, row :: rest => rowCells r 1 row ++ dataCells (r+1) rest

/-- The value left at a coordinate by a sequence of writes: the last
write at that coordinate, if any. -/
def lookupLast? : List ((ℕ × ℕ) × Option CVal) → ℕ → ℕ → Option (Option CVal)
  | [], _, _ => Option.none
  | e :: t, r, c =>
    match lookupLast? t r c with
    | some v => some v
    | Option.none => if r = e.1.1 ∧ c = e.1.2 then some e.2 else Option.none

/-- Perform a sequence of cell writes in order. -/
def applyWrites (cells : List ((ℕ × ℕ) × CVal)) :
    List ((ℕ × ℕ) × Option CVal) → List ((ℕ × ℕ) × CVal)
  | [] => cells
  | e :: rest => applyWrites (setSCell cells e.1.1 e.1.2 e.2) rest

/-- `write_dataframe_to_sheet` (identical up to logging in all three
scripts): an existing sheet has all its rows deleted (`max_row` is at
least 1 in openpyxl, so the guard always fires and `delete_rows(1,
max_row)` clears everything); a fresh sheet is created empty.  Then the
headers are written to row 1, the data to rows 2.., and the sheet is
hidden regardless of its previous state. -/
def write_dataframe_to_sheet (existing : Option Sheet) (df : DataFrame) : Sheet :=
  let cleared : List ((ℕ × ℕ) × CVal) :=
    match existing with
    | some _ => []
    | Option.none => []
  { cells := applyWrites cleared (headerCells 1 df.columns ++ dataCells 2 df.rows),
    hidden := true }

/-- A previously visible sheet holding stale data. -/
def wSheetVisible : Sheet := { cells := [((5, 5), .s "stale".data)], hidden := false }

/-- A small two-column frame with an empty cell. -/
def wDF : DataFrame :=
  { columns := ["A".data, "B".data],
    rows := [[some (.s "x".data), Option.none], [some (.n 7), some (.s "y".data)]] }

/-! ## Shared lemmas -/

theorem all_ws_pyStrip_nil {s : List Char} (h : s.all pyIsWs = true) : pyStrip s = [] := by
  have h' : ∀ x ∈ s, pyIsWs x = true := by simpa [List.all_eq_true] using h
  have h1 : rstripWs s = [] := by
    unfold rstripWs
    have h2 : s.reverse.dropWhile pyIsWs = [] := by
      rw [List.dropWhile_eq_nil_iff]
      intro x hx
      exact h' x (List.mem_reverse.mp hx)
    simp [h2]
  simp [pyStrip, h1, lstripWs, List.dropWhile]

theorem guard_finite (y : NumF) :
    (if y.isNanB || y.isInfB then NumF.finite 0 else y).isFiniteB = true := by
  cases y <;> simp [NumF.isNanB, NumF.isInfB, NumF.isFiniteB]

theorem lstrip_cons_nonws {c : Char} {s : List Char} (h : pyIsWs c = false) :
    lstripWs (c :: s) = c :: s := by
  simp [lstripWs, List.dropWhile_cons, h]

theorem rstrip_cons_nonws {c : Char} {s : List Char} (h : pyIsWs c = false) :
    rstripWs (c :: s) = c :: rstripWs s := by
  unfold rstripWs
  rw [List.reverse_cons, List.dropWhile_append]
  by_cases h1 : (s.reverse.dropWhile pyIsWs).isEmpty
  · rw [if_pos h1]
    rw [List.isEmpty_iff] at h1
    simp [h1, List.dropWhile_cons, h]
  · rw [if_neg h1]
    simp

theorem lstrip_nil_all {u : List Char} (h : lstripWs u = []) : ∀ x ∈ u, pyIsWs x = true := by
  simpa [lstripWs, List.dropWhile_eq_nil_iff] using h

theorem rstrip_getLast_not_ws {s : List Char} {x : Char}
    (h : (rstripWs s).getLast? = some x) : pyIsWs x = false := by
  unfold rstripWs at h
  rw [List.getLast?_reverse] at h
  have h2 := List.head?_dropWhile_not pyIsWs s.reverse
  rw [h] at h2
  exact h2

theorem rstrip_nil_lstrip_nil {s : List Char} (hu : rstripWs s ≠ [])
    (hl : lstripWs (rstripWs s) = []) : False := by
  have hall := lstrip_nil_all hl
  have hx : (rstripWs s).getLast? = some ((rstripWs s).getLast hu) :=
    List.getLast?_eq_getLast _ hu
  have h1 := rstrip_getLast_not_ws hx
  have h2 := hall _ (List.getLast_mem hu)
  rw [h1] at h2
  exact Bool.false_ne_true h2

theorem mem_dropWhile_of {p : Char → Bool} {x : Char} {l : List Char}
    (hx : x ∈ l) (hpx : p x = false) : x ∈ l.dropWhile p := by
  induction l with
  | nil => cases hx
  | cons a t ih =>
    rw [List.dropWhile_cons]
    rcases List.mem_cons.mp hx with rfl | hm
    · simp [hpx]
    · split
      · exact ih hm
      · exact List.mem_cons_of_mem _ hm

theorem cleanNum_append (a b : List Char) : cleanNum (a ++ b) = cleanNum a ++ cleanNum b := by
  simp [cleanNum, List.filter_append, List.map_append]

theorem mem_cleanNum {x : Char} {l : List Char} (h : x ∈ cleanNum l) : x ∈ l := by
  unfold cleanNum at h
  obtain ⟨hm, hcond⟩ := List.mem_filter.mp h
  obtain ⟨y, hy, hxy⟩ := List.mem_map.mp hm
  have hyl : y ∈ l := List.mem_of_mem_filter (List.mem_of_mem_filter hy)
  by_cases hnb : y = ' '
  · subst hnb
    simp at hxy
    subst hxy
    simp at hcond
  · rw [if_neg hnb] at hxy
    subst hxy
    exact hyl

theorem cleanNum_all_ws {w : List Char} (h : ∀ x ∈ w, pyIsWs x = true) :
    ∀ x ∈ cleanNum w, pyIsWs x = true :=
  fun x hx => h x (mem_cleanNum hx)

theorem count_eq_zero_of_ws {w : List Char} (h : ∀ x ∈ w, pyIsWs x = true)
    (a : Char) (ha : pyIsWs a = false) : w.count a = 0 := by
  rw [List.count_eq_zero]
  intro hm
  rw [h a hm] at ha
  exact Bool.noConfusion ha

theorem commaFix_ws_append {w X : List Char} (hw : ∀ x ∈ w, pyIsWs x = true) :
    commaFix (w ++ X) = w ++ commaFix X := by
  have hc : w.count ',' = 0 := count_eq_zero_of_ws hw ',' (by decide)
  have hd : w.count '.' = 0 := count_eq_zero_of_ws hw '.' (by decide)
  unfold commaFix
  rw [List.count_append, List.count_append, hc, hd, Nat.zero_add, Nat.zero_add]
  split
  · rw [List.map_append]
    congr 1
    have : ∀ x ∈ w, (if x = ',' then '.' else x) = x := by
      intro x hx
      rw [if_neg]
      intro hx'
      subst hx'
      have := hw _ hx
      simp [pyIsWs] at this
    calc w.map (fun c => if c = ',' then '.' else c) = w.map id := List.map_congr_left this
      _ = w := List.map_id w
  · rw [List.filter_append]
    congr 1
    rw [List.filter_eq_self]
    intro x hx
    simp only [Bool.not_eq_true']
    rw [decide_eq_false_iff_not]
    intro hx'
    subst hx'
    have := hw _ hx
    simp [pyIsWs] at this

theorem pyStrip_ws_append {w Y : List Char} (hw : ∀ x ∈ w, pyIsWs x = true) :
    pyStrip (w ++ Y) = pyStrip Y := by
  unfold pyStrip rstripWs
  rw [List.reverse_append, List.dropWhile_append]
  have hwrev : w.reverse.dropWhile pyIsWs = [] := by
    rw [List.dropWhile_eq_nil_iff]
    intro x hx
    exact hw x (List.mem_reverse.mp hx)
  by_cases h1 : (Y.reverse.dropWhile pyIsWs).isEmpty
  · rw [if_pos h1, hwrev]
    rw [List.isEmpty_iff] at h1
    rw [h1]
  · rw [if_neg h1, List.reverse_append, List.reverse_reverse]
    unfold lstripWs
    rw [List.dropWhile_append]
    rw [if_pos]
    rw [List.isEmpty_iff, List.dropWhile_eq_nil_iff]
    exact hw

theorem pyFloat_ws_append {w Y : List Char} (hw : ∀ x ∈ w, pyIsWs x = true) :
    pyFloat (w ++ Y) = pyFloat Y := by
  unfold pyFloat
  rw [pyStrip_ws_append hw]

theorem contains_eq_of_mem_iff {a : Char} {l₁ l₂ : List Char} (h : a ∈ l₁ ↔ a ∈ l₂) :
    l₁.contains a = l₂.contains a := by
  cases hc : l₂.contains a
  · rw [Bool.eq_false_iff]
    intro hc1
    have hm : a ∈ l₁ := List.elem_iff.mp hc1
    have h2 : l₂.contains a = true := List.elem_iff.mpr (h.mp hm)
    rw [h2] at hc
    exact Bool.noConfusion hc
  · exact List.elem_iff.mpr (h.mpr (List.elem_iff.mp hc))


@[simp] theorem toNat_char_0 : '0'.toNat = 48 := by decide

@[simp] theorem toNat_char_1 : '1'.toNat = 49 := by decide

@[simp] theorem toNat_char_2 : '2'.toNat = 50 := by decide

@[simp] theorem toNat_char_3 : '3'.toNat = 51 := by decide

@[simp] theorem toNat_char_4 : '4'.toNat = 52 := by decide

@[simp] theorem toNat_char_5 : '5'.toNat = 53 := by decide

@[simp] theorem toNat_char_6 : '6'.toNat = 54 := by decide

@[simp] theorem toNat_char_7 : '7'.toNat = 55 := by decide

@[simp] theorem toNat_char_8 : '8'.toNat = 56 := by decide

@[simp] theorem toNat_char_9 : '9'.toNat = 57 := by decide

/-! ## C1: totality of the numeric normalizer -/

theorem to_num_str_finite (s0 : List Char) : (to_num_str s0).isFiniteB = true := by
  unfold to_num_str
  by_cases hs : pyStrip s0 = []
  · rw [if_pos hs]
    rfl
  · rw [if_neg hs]
    cases hpf : pyFloat (to_num_pre s0).2.2 with
    | none => rfl
    | some x => exact guard_finite _

set_option maxRecDepth 4000 in
/-- C1 counterexample: `to_num` is not total — for an int beyond double
range (here `10 ^ 400`) the conversion `float(v)` raises `OverflowError`,
and that call sits outside the `try`, so `to_num` raises instead of
returning a finite float. -/
theorem to_num_int_overflow_counterexample :
    to_num (PyVal.int (10 ^ 400)) = Except.error () := by decide

/-- C1 (amended): `to_num` returns a finite float, without raising, for
None, every string, every float, and every int within double range; the
only raising inputs are ints at or beyond double range
(`|n| ≥ 2^1024 - 2^970`), whose `float(v)` conversion raises
`OverflowError` outside the `try`.  None, whitespace-only strings (the
empty string included), NaN or infinite float inputs, and strings whose
cleaned form fails to parse as a float all yield 0.0. -/
theorem to_num_total :
    (∀ v x, to_num v = Except.ok x → x.isFiniteB = true) ∧
    (∀ v, to_num v = Except.error () →
      ∃ n : ℤ, v = PyVal.int n ∧ 2 ^ 1024 - 2 ^ 970 ≤ n.natAbs) ∧
    (∀ n : ℤ, n.natAbs < 2 ^ 1024 - 2 ^ 970 →
      to_num (PyVal.int n) = Except.ok (NumF.finite (n : ℚ))) ∧
    to_num PyVal.none = Except.ok (NumF.finite 0) ∧
    (∀ s : List Char, s.all pyIsWs = true →
      to_num (PyVal.str s) = Except.ok (NumF.finite 0)) ∧
    (∀ f : NumF, (f.isNanB || f.isInfB) = true →
      to_num (PyVal.float f) = Except.ok (NumF.finite 0)) ∧
    (∀ s : List Char, pyFloat (to_num_pre s).2.2 = Option.none →
      to_num (PyVal.str s) = Except.ok (NumF.finite 0)) := by
  have hstr0 : ∀ s : List Char, pyStrip s = [] →
      to_num (PyVal.str s) = Except.ok (NumF.finite 0) := by
    intro s h
    show Except.ok (to_num_str s) = _
    unfold to_num_str
    rw [if_pos h]
  refine ⟨?_, ?_, ?_, rfl, ?_, ?_, ?_⟩
  · intro v x h
    cases v with
    | none =>
      replace h : Except.ok (NumF.finite 0) = Except.ok x := h
      cases h
      rfl
    | int n =>
      replace h : pyFloatOfInt n = Except.ok x := h
      unfold pyFloatOfInt at h
      by_cases hn : n.natAbs < 2 ^ 1024 - 2 ^ 970
      · rw [if_pos hn] at h
        cases h
        rfl
      · rw [if_neg hn] at h
        cases h
    | float f =>
      replace h : Except.ok (if f.isNanB || f.isInfB then NumF.finite 0 else f) =
        Except.ok x := h
      cases h
      exact guard_finite f
    | str s0 =>
      replace h : Except.ok (to_num_str s0) = Except.ok x := h
      cases h
      exact to_num_str_finite s0
  · intro v h
    cases v with
    | none =>
      replace h : (Except.ok (NumF.finite 0) : Except Unit NumF) = Except.error () := h
      cases h
    | int n =>
      replace h : pyFloatOfInt n = Except.error () := h
      unfold pyFloatOfInt at h
      by_cases hn : n.natAbs < 2 ^ 1024 - 2 ^ 970
      · rw [if_pos hn] at h
        cases h
      · exact ⟨n, rfl, Nat.le_of_not_lt hn⟩
    | float f =>
      replace h : (Except.ok (if f.isNanB || f.isInfB then NumF.finite 0 else f) :
        Except Unit NumF) = Except.error () := h
      cases h
    | str s0 =>
      replace h : (Except.ok (to_num_str s0) : Except Unit NumF) = Except.error () := h
      cases h
  · intro n hn
    show pyFloatOfInt n = _
    unfold pyFloatOfInt
    rw [if_pos hn]
  · intro s h
    exact hstr0 s (all_ws_pyStrip_nil h)
  · intro f h
    show Except.ok (if f.isNanB || f.isInfB then NumF.finite 0 else f) = _
    rw [if_pos h]
  · intro s h
    by_cases hs : pyStrip s = []
    · exact hstr0 s hs
    · show Except.ok (to_num_str s) = _
      unfold to_num_str
      rw [if_neg hs, h]

set_option maxRecDepth 4000 in
/-- Witness for `to_num_total` at an in-range int, a whitespace string, a
NaN float and an unparseable string. -/
theorem to_num_total_witness :
    ((5 : ℤ).natAbs < 2 ^ 1024 - 2 ^ 970 ∧
      to_num (PyVal.int 5) = Except.ok (NumF.finite ((5 : ℤ) : ℚ))) ∧
    (" \t ".data.all pyIsWs = true ∧
      to_num (PyVal.str " \t ".data) = Except.ok (NumF.finite 0)) ∧
    ((NumF.nan.isNanB || NumF.nan.isInfB) = true ∧
      to_num (PyVal.float NumF.nan) = Except.ok (NumF.finite 0)) ∧
    (pyFloat (to_num_pre "abc".data).2.2 = Option.none ∧
      to_num (PyVal.str "abc".data) = Except.ok (NumF.finite 0)) :=
  ⟨⟨by decide, to_num_total.2.2.1 5 (by decide)⟩,
   ⟨by decide, to_num_total.2.2.2.2.1 _ (by decide)⟩,
   ⟨by decide, to_num_total.2.2.2.2.2.1 _ (by decide)⟩,
   ⟨by decide, to_num_total.2.2.2.2.2.2 _ (by decide)⟩⟩

/-! ## C2: decimal-separator disambiguation -/

/-- C2: the comma/dot disambiguation is exactly as specified (at least one
comma and no dot makes the comma the decimal point, otherwise commas are
removed as thousands separators), and the five reference values follow. -/
theorem to_num_separator :
    (∀ l : List Char, 0 < l.count ',' → l.count '.' = 0 →
      commaFix l = l.map (fun c => if c = ',' then '.' else c)) ∧
    (∀ l : List Char, l.count ',' = 0 ∨ l.count '.' ≠ 0 →
      commaFix l = l.filter (fun c => !(c = ','))) ∧
    to_num (PyVal.str "1 234,56".data) = Except.ok (NumF.finite (123456 / 100)) ∧
    to_num (PyVal.str "1,234.56".data) = Except.ok (NumF.finite (123456 / 100)) ∧
    to_num (PyVal.str "(123)".data) = Except.ok (NumF.finite (-123)) ∧
    to_num (PyVal.str "12%".data) = Except.ok (NumF.finite (12 / 100)) ∧
    to_num (PyVal.str "€1,234.56".data) = Except.ok (NumF.finite (123456 / 100)) := by
  refine ⟨?_, ?_, ?_, ?_, ?_, ?_, ?_⟩
  · intro l h1 h2
    unfold commaFix
    rw [if_pos ⟨h1, h2⟩]
  · intro l h
    unfold commaFix
    rw [if_neg]
    rintro ⟨h1, h2⟩
    rcases h with h | h
    · omega
    · exact h h2
  · norm_num +decide [to_num, to_num_str, to_num_pre, pyStrip, lstripWs, rstripWs, pyIsWs,
      cleanNum, commaFix, pyFloat, parseSign, parseUnsigned, withExp, mantissaVal, digitsVal,
      isDigitChar, lowerList, applySignPct, NumF.div100, List.dropWhile, List.takeWhile]
  · norm_num +decide [to_num, to_num_str, to_num_pre, pyStrip, lstripWs, rstripWs, pyIsWs,
      cleanNum, commaFix, pyFloat, parseSign, parseUnsigned, withExp, mantissaVal, digitsVal,
      isDigitChar, lowerList, applySignPct, NumF.div100, List.dropWhile, List.takeWhile]
  · norm_num +decide [to_num, to_num_str, to_num_pre, pyStrip, lstripWs, rstripWs, pyIsWs,
      cleanNum, commaFix, pyFloat, parseSign, parseUnsigned, withExp, mantissaVal, digitsVal,
      isDigitChar, lowerList, applySignPct, NumF.negF, NumF.div100, List.dropWhile,
      List.takeWhile]
  · norm_num +decide [to_num, to_num_str, to_num_pre, pyStrip, lstripWs, rstripWs, pyIsWs,
      cleanNum, commaFix, pyFloat, parseSign, parseUnsigned, withExp, mantissaVal, digitsVal,
      isDigitChar, lowerList, applySignPct, NumF.div100, List.dropWhile, List.takeWhile]
  · norm_num +decide [to_num, to_num_str, to_num_pre, pyStrip, lstripWs, rstripWs, pyIsWs,
      cleanNum, commaFix, pyFloat, parseSign, parseUnsigned, withExp, mantissaVal, digitsVal,
      isDigitChar, lowerList, applySignPct, NumF.div100, List.dropWhile, List.takeWhile]

/-- Witness for `to_num_separator`: the comma rule applied to a
comma-only and a dot-and-comma string. -/
theorem to_num_separator_witness :
    (0 < [','].count ',' ∧ [','].count '.' = 0 ∧ commaFix [','] = ['.']) ∧
    (['.', ','].count '.' ≠ 0 ∧ commaFix ['.', ','] = ['.']) := by
  refine ⟨⟨by decide, by decide, ?_⟩, ⟨by decide, ?_⟩⟩
  · rw [to_num_separator.1 [','] (by decide) (by decide)]
    decide
  · rw [to_num_separator.2.1 ['.', ','] (Or.inr (by decide))]
    decide

/-! ## C3: currency-symbol removal -/

/-- C3 counterexample: a dollar-prefixed amount does not normalize to the
amount — only the euro sign is removed, so `to_num("$123")` is `0.0` while
`to_num("123")` is `123.0`. -/
theorem to_num_dollar_counterexample :
    to_num (PyVal.str "$123".data) = Except.ok (NumF.finite 0) ∧
    to_num (PyVal.str "123".data) = Except.ok (NumF.finite 123) ∧
    (NumF.finite 0 : NumF) ≠ NumF.finite 123 := by
  refine ⟨by decide, ?_, by decide⟩
  norm_num +decide [to_num, to_num_str, to_num_pre, pyStrip, lstripWs, rstripWs, pyIsWs,
    cleanNum, commaFix, pyFloat, parseSign, parseUnsigned, withExp, mantissaVal, digitsVal,
    isDigitChar, lowerList, applySignPct, List.dropWhile, List.takeWhile]

theorem to_num_pre_p1 (s0 : List Char) :
    (to_num_pre s0).1 =
      (decide ((pyStrip s0).head? = some '(') && decide ((pyStrip s0).getLast? = some ')')) := rfl

theorem to_num_pre_p2 (s0 : List Char) :
    (to_num_pre s0).2.1 =
      (if (to_num_pre s0).1 then ((pyStrip s0).drop 1).dropLast else pyStrip s0).contains '%' := rfl

theorem to_num_pre_p3 (s0 : List Char) :
    (to_num_pre s0).2.2 =
      commaFix (cleanNum
        (if (to_num_pre s0).1 then ((pyStrip s0).drop 1).dropLast else pyStrip s0)) := rfl

theorem to_num_str_congr {a b : List Char} (hne_a : pyStrip a ≠ []) (hne_b : pyStrip b ≠ [])
    (h1 : (to_num_pre a).1 = (to_num_pre b).1)
    (h2 : (to_num_pre a).2.1 = (to_num_pre b).2.1)
    (h3 : pyFloat (to_num_pre a).2.2 = pyFloat (to_num_pre b).2.2) :
    to_num_str a = to_num_str b := by
  unfold to_num_str
  rw [if_neg hne_a, if_neg hne_b, h3]
  cases hpf : pyFloat (to_num_pre b).2.2 with
  | none => rfl
  | some x =>
    unfold applySignPct
    rw [h1, h2]

theorem to_num_str_euro (s : List Char)
    (h : ¬((pyStrip s).head? = some '(' ∧ (pyStrip s).getLast? = some ')')) :
    to_num_str ('€' :: s) = to_num_str s := by
  have heuro : pyIsWs '€' = false := by decide
  have hstrip : pyStrip ('€' :: s) = '€' :: rstripWs s := by
    unfold pyStrip
    rw [rstrip_cons_nonws heuro, lstrip_cons_nonws heuro]
  by_cases hu : rstripWs s = []
  · have hps : pyStrip s = [] := by unfold pyStrip; rw [hu]; rfl
    have h1 : pyStrip ('€' :: s) = ['€'] := by rw [hstrip, hu]
    have hR : to_num_str s = NumF.finite 0 := by
      unfold to_num_str
      rw [if_pos hps]
    have hpre : to_num_pre ('€' :: s) = (false, false, []) := by
      unfold to_num_pre
      rw [h1]
      decide
    have hL : to_num_str ('€' :: s) = NumF.finite 0 := by
      unfold to_num_str
      rw [if_neg (by rw [h1]; exact fun hh => List.noConfusion hh), hpre]
      rfl
    rw [hL, hR]
  · have hlne : lstripWs (rstripWs s) ≠ [] := fun hl => rstrip_nil_lstrip_nil hu hl
    have hps : pyStrip s = lstripWs (rstripWs s) := rfl
    have hsplit : (rstripWs s).takeWhile pyIsWs ++ lstripWs (rstripWs s) = rstripWs s := by
      unfold lstripWs
      exact List.takeWhile_append_dropWhile pyIsWs (rstripWs s)
    have hw : ∀ x ∈ (rstripWs s).takeWhile pyIsWs, pyIsWs x = true :=
      fun x hx => List.mem_takeWhile_imp hx
    have hne1 : pyStrip ('€' :: s) ≠ [] := by
      rw [hstrip]
      exact List.cons_ne_nil _ _
    have hA1 : (to_num_pre ('€' :: s)).1 = false := by
      rw [to_num_pre_p1, hstrip]
      simp
    have hB1 : (to_num_pre s).1 = false := by
      rw [to_num_pre_p1, Bool.eq_false_iff]
      intro hb
      rw [Bool.and_eq_true, decide_eq_true_eq, decide_eq_true_eq] at hb
      exact h hb
    have hpct : ('€' :: rstripWs s).contains '%' = (lstripWs (rstripWs s)).contains '%' := by
      apply contains_eq_of_mem_iff
      constructor
      · intro hm
        rcases List.mem_cons.mp hm with he | hm2
        · exact absurd he (by decide)
        · rw [← hsplit] at hm2
          rcases List.mem_append.mp hm2 with hw2 | ht2
          · have h3 := hw _ hw2
            simp [pyIsWs] at h3
          · exact ht2
      · intro hm
        apply List.mem_cons_of_mem
        rw [← hsplit]
        exact List.mem_append.mpr (Or.inr hm)
    have hclean : cleanNum ('€' :: rstripWs s) =
        cleanNum ((rstripWs s).takeWhile pyIsWs) ++ cleanNum (lstripWs (rstripWs s)) := by
      have h1 : cleanNum ('€' :: rstripWs s) = cleanNum (rstripWs s) := by
        simp +decide [cleanNum, List.filter_cons]
      rw [h1]
      conv_lhs => rw [← hsplit]
      rw [cleanNum_append]
    have hwsc : ∀ x ∈ cleanNum ((rstripWs s).takeWhile pyIsWs), pyIsWs x = true :=
      cleanNum_all_ws hw
    show to_num_str ('€' :: s) = to_num_str s
    apply to_num_str_congr hne1 (by rw [hps]; exact hlne)
    · rw [hA1, hB1]
    · rw [to_num_pre_p2, to_num_pre_p2, hA1, hB1]
      simp only [Bool.false_eq_true, if_false]
      rw [hstrip, ← hps] at *
      rw [hstrip]
      exact hpct
    · rw [to_num_pre_p3, to_num_pre_p3, hA1, hB1]
      simp only [Bool.false_eq_true, if_false]
      rw [hstrip, hps, hclean, commaFix_ws_append hwsc, pyFloat_ws_append hwsc]

/-- C3 (amended): the normalizer removes the euro sign (the only currency
symbol the code handles), no-break spaces and ordinary spaces, so a euro
prefix is transparent: for every string whose stripped form is not
parenthesis-wrapped, prepending a euro sign yields the same value. -/
theorem to_num_euro_removed (s : List Char)
    (h : ¬((pyStrip s).head? = some '(' ∧ (pyStrip s).getLast? = some ')')) :
    to_num (PyVal.str ('€' :: s)) = to_num (PyVal.str s) := by
  show Except.ok (to_num_str ('€' :: s)) = Except.ok (to_num_str s)
  rw [to_num_str_euro s h]

/-- Witness for `to_num_euro_removed` at the string `1,50`. -/
theorem to_num_euro_removed_witness :
    ¬((pyStrip "1,50".data).head? = some '(' ∧ (pyStrip "1,50".data).getLast? = some ')') ∧
    to_num (PyVal.str ('€' :: "1,50".data)) = to_num (PyVal.str "1,50".data) :=
  ⟨by decide, to_num_euro_removed _ (by decide)⟩

/-! ## Grid lemmas -/

theorem getVal_setVal (g : Grid) (r c : ℕ) (v : CVal) (r' c' : ℕ) :
    getVal (setVal g r c v) r' c' =
      if r' = r ∧ c' = c then some v else getVal g r' c' := by
  unfold getVal setVal
  rw [List.find?_cons]
  by_cases h : r' = r ∧ c' = c
  · obtain ⟨h1, h2⟩ := h
    subst h1
    subst h2
    simp
  · rw [if_neg h]
    have hb : (r == r' && c == c') = false := by
      rw [Bool.and_eq_false_iff]
      by_cases h1 : r = r'
      · subst h1
        right
        rw [beq_eq_false_iff_ne]
        intro h2
        exact h ⟨rfl, h2.symm⟩
      · left
        rw [beq_eq_false_iff_ne]
        exact fun h2 => h1 h2
    simp only [hb]

theorem getVal_setVal_same (g : Grid) (r c : ℕ) (v : CVal) :
    getVal (setVal g r c v) r c = some v := by
  rw [getVal_setVal, if_pos ⟨rfl, rfl⟩]

theorem getVal_setVal_other (g : Grid) (r c : ℕ) (v : CVal) (r' c' : ℕ)
    (h : ¬(r' = r ∧ c' = c)) : getVal (setVal g r c v) r' c' = getVal g r' c' := by
  rw [getVal_setVal, if_neg h]

theorem row_le_fold (l : List ((ℕ × ℕ) × CVal)) :
    ∀ e ∈ l, e.1.1 ≤ l.foldr (fun e a => max e.1.1 a) 1 := by
  induction l with
  | nil => intro e he; cases he
  | cons a t ih =>
    intro e he
    rcases List.mem_cons.mp he with rfl | hm
    · exact Nat.le_max_left _ _
    · exact Nat.le_trans (ih e hm) (Nat.le_max_right _ _)

theorem col_le_fold (l : List ((ℕ × ℕ) × CVal)) :
    ∀ e ∈ l, e.1.2 ≤ l.foldr (fun e a => max e.1.2 a) 1 := by
  induction l with
  | nil => intro e he; cases he
  | cons a t ih =>
    intro e he
    rcases List.mem_cons.mp he with rfl | hm
    · exact Nat.le_max_left _ _
    · exact Nat.le_trans (ih e hm) (Nat.le_max_right _ _)

theorem le_dims_of_getVal {g : Grid} {r c : ℕ} {v : CVal} (h : getVal g r c = some v) :
    r ≤ g.maxRow ∧ c ≤ g.maxCol := by
  unfold getVal at h
  cases hf : g.cells.find? (fun e => e.1.1 == r && e.1.2 == c) with
  | none => rw [hf] at h; cases h
  | some e =>
    have hmem := List.mem_of_find?_eq_some hf
    have hp := List.find?_some hf
    rw [Bool.and_eq_true, beq_iff_eq, beq_iff_eq] at hp
    obtain ⟨h1, h2⟩ := hp
    constructor
    · rw [← h1]; exact row_le_fold _ _ hmem
    · rw [← h2]; exact col_le_fold _ _ hmem

theorem getVal_none_of_gt_maxRow {g : Grid} {r c : ℕ} (h : g.maxRow < r) :
    getVal g r c = Option.none := by
  cases hv : getVal g r c with
  | none => rfl
  | some v =>
    have := (le_dims_of_getVal hv).1
    omega

theorem getVal_none_of_gt_maxCol {g : Grid} {r c : ℕ} (h : g.maxCol < c) :
    getVal g r c = Option.none := by
  cases hv : getVal g r c with
  | none => rfl
  | some v =>
    have := (le_dims_of_getVal hv).2
    omega

theorem maxRow_setVal (g : Grid) (r c : ℕ) (v : CVal) :
    (setVal g r c v).maxRow = max r g.maxRow := rfl

theorem maxCol_setVal (g : Grid) (r c : ℕ) (v : CVal) :
    (setVal g r c v).maxCol = max c g.maxCol := rfl

theorem anchorOf_setVal (g : Grid) (r c : ℕ) (v : CVal) (r' c' : ℕ) :
    anchorOf (setVal g r c v) r' c' = anchorOf g r' c' := rfl

/-! ### Anchors and merge well-formedness -/

theorem inRangeB_iff {mr : MergeRange} {r c : ℕ} :
    inRangeB mr r c = true ↔
      mr.minRow ≤ r ∧ r ≤ mr.maxRow ∧ mr.minCol ≤ c ∧ c ≤ mr.maxCol := by
  simp [inRangeB, Bool.and_eq_true, decide_eq_true_eq, and_assoc]

theorem rects_disjoint_not_both {a b : MergeRange} {r c : ℕ}
    (hd : rectsDisjointB a b = true)
    (h1 : inRangeB a r c = true) (h2 : inRangeB b r c = true) : False := by
  rw [inRangeB_iff] at h1 h2
  simp only [rectsDisjointB, Bool.or_eq_true, decide_eq_true_eq] at hd
  omega

theorem disjointList_unique :
    ∀ {L : List MergeRange}, disjointListB L = true →
      ∀ {mr : MergeRange} {r c : ℕ}, mr ∈ L → inRangeB mr r c = true →
        L.find? (fun x => inRangeB x r c) = some mr := by
  intro L
  induction L with
  | nil =>
    intro _ mr r c hmem
    cases hmem
  | cons a t ih =>
    intro hd mr r c hmem hin
    unfold disjointListB at hd
    rw [Bool.and_eq_true] at hd
    obtain ⟨hall, hrest⟩ := hd
    rw [List.find?_cons]
    rcases List.mem_cons.mp hmem with rfl | hmem2
    · simp only [hin]
    · by_cases ha : inRangeB a r c = true
      · exact absurd (rects_disjoint_not_both
          (List.all_eq_true.mp hall mr hmem2) ha hin) (fun f => f)
      · rw [Bool.not_eq_true] at ha
        simp only [ha]
        exact ih hrest hmem2 hin

theorem mergesWF_parts {g : Grid} (h : mergesWFB g = true) :
    (∀ mr ∈ g.merges, rangeWFB mr = true) ∧ disjointListB g.merges = true := by
  unfold mergesWFB at h
  rw [Bool.and_eq_true] at h
  exact ⟨List.all_eq_true.mp h.1, h.2⟩

theorem anchorOf_mem {g : Grid} {mr : MergeRange} {r c : ℕ} (hwf : mergesWFB g = true)
    (hmem : mr ∈ g.merges) (hin : inRangeB mr r c = true) :
    anchorOf g r c = (mr.minRow, mr.minCol) := by
  unfold anchorOf
  rw [disjointList_unique (mergesWF_parts hwf).2 hmem hin]

theorem anchorOf_no_range {g : Grid} {r c : ℕ}
    (h : ∀ mr ∈ g.merges, inRangeB mr r c = false) : anchorOf g r c = (r, c) := by
  unfold anchorOf
  rw [List.find?_eq_none.mpr (fun mr hm => by rw [h mr hm]; exact Bool.false_ne_true)]

theorem rangeWF_iff {mr : MergeRange} :
    rangeWFB mr = true ↔
      1 ≤ mr.minRow ∧ mr.minRow ≤ mr.maxRow ∧ 1 ≤ mr.minCol ∧ mr.minCol ≤ mr.maxCol := by
  simp [rangeWFB, Bool.and_eq_true, decide_eq_true_eq, and_assoc]

theorem anchorOf_idem {g : Grid} {r c : ℕ} (hwf : mergesWFB g = true) :
    anchorOf g (anchorOf g r c).1 (anchorOf g r c).2 = anchorOf g r c := by
  cases hf : g.merges.find? (fun mr => inRangeB mr r c) with
  | none =>
    have h1 : anchorOf g r c = (r, c) := by unfold anchorOf; rw [hf]
    rw [h1]
    exact h1
  | some mr =>
    have h1 : anchorOf g r c = (mr.minRow, mr.minCol) := by unfold anchorOf; rw [hf]
    have hmem := List.mem_of_find?_eq_some hf
    have hwfr := rangeWF_iff.mp ((mergesWF_parts hwf).1 mr hmem)
    have hin : inRangeB mr mr.minRow mr.minCol = true := by
      rw [inRangeB_iff]
      omega
    rw [h1]
    exact anchorOf_mem hwf hmem hin

theorem anchorOf_le (g : Grid) (r c : ℕ) :
    (anchorOf g r c).1 ≤ r ∧ (anchorOf g r c).2 ≤ c := by
  cases hf : g.merges.find? (fun mr => inRangeB mr r c) with
  | none =>
    have h1 : anchorOf g r c = (r, c) := by unfold anchorOf; rw [hf]
    rw [h1]
    exact ⟨Nat.le_refl r, Nat.le_refl c⟩
  | some mr =>
    have h1 : anchorOf g r c = (mr.minRow, mr.minCol) := by unfold anchorOf; rw [hf]
    have hp := List.find?_some hf
    rw [inRangeB_iff] at hp
    rw [h1]
    exact ⟨hp.1, hp.2.2.1⟩

theorem anchorOf_pos {g : Grid} {r c : ℕ} (hwf : mergesWFB g = true)
    (hr : 1 ≤ r) (hc : 1 ≤ c) :
    1 ≤ (anchorOf g r c).1 ∧ 1 ≤ (anchorOf g r c).2 := by
  cases hf : g.merges.find? (fun mr => inRangeB mr r c) with
  | none =>
    have h1 : anchorOf g r c = (r, c) := by unfold anchorOf; rw [hf]
    rw [h1]
    exact ⟨hr, hc⟩
  | some mr =>
    have h1 : anchorOf g r c = (mr.minRow, mr.minCol) := by unfold anchorOf; rw [hf]
    have hmem := List.mem_of_find?_eq_some hf
    have hwfr := rangeWF_iff.mp ((mergesWF_parts hwf).1 mr hmem)
    rw [h1]
    exact ⟨hwfr.1, hwfr.2.2.1⟩

/-! ### Scan-loop lemmas -/

theorem scanRowP_eq_some_of {p : ℕ → Bool} :
    ∀ (fuel c0 c : ℕ), c0 ≤ c → c < c0 + fuel → p c = true →
      (∀ c', c0 ≤ c' → c' < c → p c' = false) → scanRowP p c0 fuel = some c := by
  intro fuel
  induction fuel with
  | zero =>
    intro c0 c h1 h2
    omega
  | succ n ih =>
    intro c0 c h1 h2 hp hprev
    unfold scanRowP
    by_cases h0 : c0 = c
    · subst h0
      rw [if_pos hp]
    · have hlt : c0 < c := Nat.lt_of_le_of_ne h1 h0
      rw [hprev c0 (Nat.le_refl c0) hlt]
      simp only [Bool.false_eq_true, if_false]
      exact ih (c0 + 1) c hlt (by omega) hp (fun c' hc1 hc2 => hprev c' (by omega) hc2)

theorem scanRowP_sound {p : ℕ → Bool} :
    ∀ (fuel c0 c : ℕ), scanRowP p c0 fuel = some c →
      c0 ≤ c ∧ c < c0 + fuel ∧ p c = true ∧ ∀ c', c0 ≤ c' → c' < c → p c' = false := by
  intro fuel
  induction fuel with
  | zero =>
    intro c0 c h
    cases h
  | succ n ih =>
    intro c0 c h
    unfold scanRowP at h
    by_cases h0 : p c0 = true
    · rw [if_pos h0] at h
      injection h with h
      subst h
      exact ⟨Nat.le_refl _, by omega, h0, fun c' hc1 hc2 => by omega⟩
    · rw [Bool.not_eq_true] at h0
      rw [h0] at h
      simp only [Bool.false_eq_true, if_false] at h
      obtain ⟨ih1, ih2, ih3, ih4⟩ := ih (c0 + 1) c h
      refine ⟨by omega, by omega, ih3, ?_⟩
      intro c' hc1 hc2
      by_cases hc0 : c' = c0
      · subst hc0
        exact h0
      · exact ih4 c' (by omega) hc2

theorem scanRowP_eq_none_of {p : ℕ → Bool} :
    ∀ (fuel c0 : ℕ), (∀ c', c0 ≤ c' → c' < c0 + fuel → p c' = false) →
      scanRowP p c0 fuel = Option.none := by
  intro fuel
  induction fuel with
  | zero =>
    intro c0 h
    rfl
  | succ n ih =>
    intro c0 h
    unfold scanRowP
    rw [h c0 (Nat.le_refl _) (by omega)]
    simp only [Bool.false_eq_true, if_false]
    exact ih (c0 + 1) (fun c' hc1 hc2 => h c' (by omega) (by omega))

theorem scanRowP_none_sound {p : ℕ → Bool} :
    ∀ (fuel c0 : ℕ), scanRowP p c0 fuel = Option.none →
      ∀ c', c0 ≤ c' → c' < c0 + fuel → p c' = false := by
  intro fuel
  induction fuel with
  | zero =>
    intro c0 h c' h1 h2
    omega
  | succ n ih =>
    intro c0 h c' h1 h2
    unfold scanRowP at h
    by_cases h0 : p c0 = true
    · rw [if_pos h0] at h
      cases h
    · rw [Bool.not_eq_true] at h0
      by_cases hc0 : c' = c0
      · subst hc0
        exact h0
      · rw [h0] at h
        simp only [Bool.false_eq_true, if_false] at h
        exact ih (c0 + 1) h c' (by omega) (by omega)

theorem scanRowsP_eq_some_of {q : ℕ → ℕ → Bool} {maxC : ℕ} :
    ∀ (fuel r0 r c : ℕ), r0 ≤ r → r < r0 + fuel → 1 ≤ c → c < 1 + maxC → q r c = true →
      (∀ r', r0 ≤ r' → r' < r → ∀ c', 1 ≤ c' → c' < 1 + maxC → q r' c' = false) →
      (∀ c', 1 ≤ c' → c' < c → q r c' = false) →
      scanRowsP q maxC r0 fuel = some (r, c) := by
  intro fuel
  induction fuel with
  | zero =>
    intro r0 r c h1 h2
    omega
  | succ n ih =>
    intro r0 r c h1 h2 hc1 hc2 hq hrows hcols
    unfold scanRowsP
    by_cases h0 : r0 = r
    · subst h0
      rw [scanRowP_eq_some_of maxC 1 c hc1 hc2 hq hcols]
    · have hlt : r0 < r := Nat.lt_of_le_of_ne h1 h0
      rw [scanRowP_eq_none_of maxC 1
        (fun c' hc1' hc2' => hrows r0 (Nat.le_refl _) hlt c' hc1' hc2')]
      exact ih (r0 + 1) r c hlt (by omega) hc1 hc2 hq
        (fun r' hr1 hr2 => hrows r' (by omega) hr2) hcols

theorem scanRowsP_sound {q : ℕ → ℕ → Bool} {maxC : ℕ} :
    ∀ (fuel r0 r c : ℕ), scanRowsP q maxC r0 fuel = some (r, c) →
      r0 ≤ r ∧ r < r0 + fuel ∧ 1 ≤ c ∧ c < 1 + maxC ∧ q r c = true ∧
        (∀ r', r0 ≤ r' → r' < r → ∀ c', 1 ≤ c' → c' < 1 + maxC → q r' c' = false) ∧
        (∀ c', 1 ≤ c' → c' < c → q r c' = false) := by
  intro fuel
  induction fuel with
  | zero =>
    intro r0 r c h
    cases h
  | succ n ih =>
    intro r0 r c h
    unfold scanRowsP at h
    cases hrow : scanRowP (q r0) 1 maxC with
    | some c1 =>
      rw [hrow] at h
      rw [Option.some.injEq, Prod.mk.injEq] at h
      obtain ⟨h1, h2⟩ := h
      subst h1
      subst h2
      obtain ⟨hs1, hs2, hs3, hs4⟩ := scanRowP_sound maxC 1 _ hrow
      exact ⟨Nat.le_refl _, by omega, hs1, hs2, hs3,
        fun r' hr1 hr2 => by omega, hs4⟩
    | none =>
      rw [hrow] at h
      obtain ⟨ih1, ih2, ih3, ih4, ih5, ih6, ih7⟩ := ih (r0 + 1) r c h
      have hr0 : ∀ c', 1 ≤ c' → c' < 1 + maxC → q r0 c' = false :=
        scanRowP_none_sound maxC 1 hrow
      refine ⟨by omega, by omega, ih3, ih4, ih5, ?_, ih7⟩
      intro r' hr1 hr2 c' hc1 hc2
      by_cases hr' : r' = r0
      · subst hr'
        exact hr0 c' hc1 hc2
      · exact ih6 r' (by omega) hr2 c' hc1 hc2

theorem scanRowsP_eq_none_of {q : ℕ → ℕ → Bool} {maxC : ℕ} :
    ∀ (fuel r0 : ℕ),
      (∀ r' c', r0 ≤ r' → r' < r0 + fuel → 1 ≤ c' → c' < 1 + maxC → q r' c' = false) →
      scanRowsP q maxC r0 fuel = Option.none := by
  intro fuel
  induction fuel with
  | zero =>
    intro r0 h
    rfl
  | succ n ih =>
    intro r0 h
    unfold scanRowsP
    rw [scanRowP_eq_none_of maxC 1
      (fun c' hc1 hc2 => h r0 c' (Nat.le_refl _) (by omega) hc1 hc2)]
    exact ih (r0 + 1) (fun r' c' hr1 hr2 hc1 hc2 => h r' c' (by omega) (by omega) hc1 hc2)

theorem scanRowsP_none_sound {q : ℕ → ℕ → Bool} {maxC : ℕ} :
    ∀ (fuel r0 : ℕ), scanRowsP q maxC r0 fuel = Option.none →
      ∀ r' c', r0 ≤ r' → r' < r0 + fuel → 1 ≤ c' → c' < 1 + maxC → q r' c' = false := by
  intro fuel
  induction fuel with
  | zero =>
    intro r0 h r' c' h1 h2
    omega
  | succ n ih =>
    intro r0 h r' c' h1 h2 hc1 hc2
    unfold scanRowsP at h
    cases hrow : scanRowP (q r0) 1 maxC with
    | some c1 =>
      rw [hrow] at h
      cases h
    | none =>
      rw [hrow] at h
      by_cases hr' : r' = r0
      · subst hr'
        exact scanRowP_none_sound maxC 1 hrow c' hc1 hc2
      · exact ih (r0 + 1) h r' c' (by omega) (by omega) hc1 hc2

/-! ### findMatch characterisation -/

theorem cellMatches_le {g : Grid} {r c : ℕ} (h : cellMatches g r c = true) :
    r ≤ g.maxRow ∧ c ≤ g.maxCol := by
  unfold cellMatches at h
  cases hv : getVal g r c with
  | none =>
    rw [hv] at h
    cases h
  | some v =>
    cases v with
    | s t => exact le_dims_of_getVal hv
    | n q =>
      rw [hv] at h
      cases h

theorem findMatch_eq_some_of {g : Grid} {r c : ℕ} (h : specFirstMatch g r c) :
    findMatch g = some (r, c) := by
  obtain ⟨h1, h2, h3, h4, h5, h6⟩ := h
  obtain ⟨hr, hc⟩ := cellMatches_le h5
  unfold findMatch
  apply scanRowsP_eq_some_of (min g.maxRow 10) 1 r c h1 (by omega) h3 (by omega) h5
  · intro r' hr1 hr2 c' hc1 hc2
    exact h6 r' (by omega) c' (by omega) hr1 hc1 (Or.inl hr2)
  · intro c' hc1 hc2
    exact h6 r h2 c' (by omega) h1 hc1 (Or.inr ⟨rfl, hc2⟩)

theorem findMatch_eq_none_of {g : Grid}
    (h : ∀ r c, 1 ≤ r → r ≤ 10 → 1 ≤ c → c ≤ 30 → cellMatches g r c = false) :
    findMatch g = Option.none := by
  unfold findMatch
  exact scanRowsP_eq_none_of (min g.maxRow 10) 1
    (fun r' c' hr1 hr2 hc1 hc2 => h r' c' hr1 (by omega) hc1 (by omega))

theorem findMatch_sound {g : Grid} {r c : ℕ} (h : findMatch g = some (r, c)) :
    1 ≤ r ∧ r ≤ min g.maxRow 10 ∧ 1 ≤ c ∧ c ≤ min g.maxCol 30 ∧ cellMatches g r c = true ∧
      ∀ r' c', 1 ≤ r' → 1 ≤ c' → c' ≤ min g.maxCol 30 → lexLt (r', c') (r, c) →
        cellMatches g r' c' = false := by
  unfold findMatch at h
  obtain ⟨s1, s2, s3, s4, s5, s6, s7⟩ := scanRowsP_sound (min g.maxRow 10) 1 r c h
  refine ⟨s1, by omega, s3, by omega, s5, ?_⟩
  intro r' c' hr1 hc1 hc2 hlex
  rcases hlex with hlt | ⟨heq, hlt⟩
  · exact s6 r' hr1 hlt c' hc1 (by omega)
  · subst heq
    exact s7 c' hc1 hlt

theorem findMatch_none_sound {g : Grid} (h : findMatch g = Option.none) :
    ∀ r c, 1 ≤ r → r ≤ min g.maxRow 10 → 1 ≤ c → c ≤ min g.maxCol 30 →
      cellMatches g r c = false := by
  unfold findMatch at h
  intro r c hr1 hr2 hc1 hc2
  exact scanRowsP_none_sound (min g.maxRow 10) 1 h r c hr1 (by omega) hc1 (by omega)

/-! ### Substring lemmas for the label tests -/

theorem isSubstr_of_pre {pat l : List Char} (h : pat.isPrefixOf l = true) :
    isSubstr pat l = true := by
  cases l with
  | nil =>
    cases pat with
    | nil => rfl
    | cons a t => cases h
  | cons c t =>
    unfold isSubstr
    rw [h]
    rfl

theorem isPre_append : ∀ (l t : List Char), l.isPrefixOf (l ++ t) = true := by
  intro l t
  induction l with
  | nil => simp
  | cons a l ih =>
    rw [List.cons_append]
    show (a == a && l.isPrefixOf (l ++ t)) = true
    rw [ih]
    simp

theorem isPre_extend : ∀ (p l b : List Char), p.isPrefixOf l = true →
    p.isPrefixOf (l ++ b) = true := by
  intro p
  induction p with
  | nil =>
    intro l b _
    simp
  | cons a p ih =>
    intro l b h
    cases l with
    | nil => cases h
    | cons c l2 =>
      have he : ((a :: p).isPrefixOf (c :: l2)) = (a == c && p.isPrefixOf l2) := rfl
      rw [he, Bool.and_eq_true] at h
      obtain ⟨h1, h2⟩ := h
      rw [List.cons_append]
      show (a == c && p.isPrefixOf (l2 ++ b)) = true
      rw [h1, ih l2 b h2]
      rfl

theorem isSubstr_cons {pat : List Char} (c : Char) {l : List Char}
    (h : isSubstr pat l = true) : isSubstr pat (c :: l) = true := by
  unfold isSubstr
  cases l with
  | nil =>
    cases pat with
    | nil => rfl
    | cons a t => cases h
  | cons d t =>
    rw [h]
    simp

theorem isSubstr_append_left {pat l : List Char} (a : List Char)
    (h : isSubstr pat l = true) : isSubstr pat (a ++ l) = true := by
  induction a with
  | nil => exact h
  | cons c t ih => exact isSubstr_cons c ih

theorem isSubstr_append_right {pat l : List Char} (b : List Char)
    (h : isSubstr pat l = true) : isSubstr pat (l ++ b) = true := by
  induction l with
  | nil =>
    cases pat with
    | nil =>
      cases b with
      | nil => rfl
      | cons c t => rfl
    | cons a t => cases h
  | cons c t ih =>
    replace h : (pat.isPrefixOf (c :: t) || isSubstr pat t) = true := h
    rw [Bool.or_eq_true] at h
    rw [List.cons_append]
    show (pat.isPrefixOf (c :: (t ++ b)) || isSubstr pat (t ++ b)) = true
    rcases h with h | h
    · have h2 := isPre_extend _ _ b h
      rw [List.cons_append] at h2
      rw [h2]
      simp
    · rw [ih h]
      simp

theorem matches_rmFull (m : List Char) :
    isSubstr labelLower (lowerList (rmFull m)) = true := by
  unfold rmFull lowerList
  rw [List.map_append]
  have h1 : List.map Char.toLower "Reporting Month: ".data = labelLower ++ ": ".data := by
    decide
  rw [h1, List.append_assoc]
  exact isSubstr_of_pre (isPre_append _ _)

theorem mem_rstrip_of {x : Char} {l : List Char} (hx : x ∈ l) (h : pyIsWs x = false) :
    x ∈ rstripWs l := by
  unfold rstripWs
  rw [List.mem_reverse]
  exact mem_dropWhile_of (List.mem_reverse.mpr hx) h

theorem mem_pyStrip_of {x : Char} {l : List Char} (hx : x ∈ l) (h : pyIsWs x = false) :
    x ∈ pyStrip l := by
  unfold pyStrip lstripWs
  exact mem_dropWhile_of (mem_rstrip_of hx h) h

theorem colon_in_strip_rmFull (m : List Char) :
    (pyStrip (rmFull m)).contains ':' = true := by
  apply List.elem_iff.mpr
  apply mem_pyStrip_of _ (by decide)
  unfold rmFull
  exact List.mem_append.mpr (Or.inl (by decide))

/-! ## C4: row-major first-match selection -/

/-- C4 counterexample: on a grid whose only (and row-major-first) label
cell is at row 1, column 1 of the window, `set_reporting_month` does not
select or update it — the function raises `NameError` before reading any
cell (the module never imports `datetime`) and performs no write. -/
theorem updater_row_major_counterexample :
    cellMatches cxGridRow1 1 1 = true ∧
    set_reporting_month cxGridRow1 = Except.error () :=
  ⟨by decide, rfl⟩

/-- C4 (amended): `upsert_reporting_month` selects the row-major-first
matching cell of the 10 × 30 window and updates based on that cell only;
`set_reporting_month` (v2) raises `NameError` on every invocation — the
module never imports `datetime` — and therefore never selects or updates
any cell. -/
theorem updater_first_match (g : Grid) (r c : ℕ) (month : List Char) :
    (specFirstMatch g r c →
      findMatch g = some (r, c) ∧
        upsert_reporting_month g month = matchStep g r c month) ∧
    (∀ g' : Grid, set_reporting_month g' = Except.error ()) := by
  constructor
  · intro h
    have hf := findMatch_eq_some_of h
    refine ⟨hf, ?_⟩
    unfold upsert_reporting_month
    rw [hf]
  · intro g'
    rfl

/-- Witness for `updater_first_match` on a concrete grid. -/
theorem updater_first_match_witness :
    specFirstMatch cxGridRow1 1 1 ∧ findMatch cxGridRow1 = some (1, 1) :=
  ⟨by decide, ((updater_first_match cxGridRow1 1 1 cxMonth).1 (by decide)).1⟩

/-! ## C5: delimiter rule at a matched cell -/

/-- C5 counterexample: two failures of the claim.  In
`upsert_reporting_month`, when the colon-free label cell (1, 1) is merged
with its right neighbour in A1:B1, the "cell immediately to the right"
resolves to the label cell's own anchor, so the bare replacement
overwrites the label cell instead of leaving it unchanged.  And in
`set_reporting_month` (v2) a colon-free match is not written to the right
at all: the function raises `NameError` before looking at any cell. -/
theorem updater_delimiter_counterexample :
    ((pyStrip (cellTextAt cxGridMergeSelf 1 1)).contains ':' = false ∧
      getVal cxGridMergeSelf 1 1 = some (.s "Reporting Month".data) ∧
      getVal (upsert_reporting_month cxGridMergeSelf cxMonth) 1 1 = some (.s cxMonth)) ∧
    (cellMatches cxGridCol1 2 1 = true ∧
      (pyStrip (cellTextAt cxGridCol1 2 1)).contains ':' = false ∧
      set_reporting_month cxGridCol1 = Except.error ()) :=
  ⟨⟨by decide, by decide, by decide⟩, ⟨by decide, by decide, rfl⟩⟩

/-- C5 (amended): in `upsert_reporting_month` the matched cell is replaced
in full (at its anchor) exactly when its stripped text contains `:`;
otherwise the bare replacement goes to the right-hand cell's anchor, and
the matched cell is unchanged provided that anchor is not the matched cell
itself (when the right cell shares a merge group anchored at the matched
cell, the replacement overwrites the label cell).  `set_reporting_month`
(v2) raises `NameError` on every invocation and performs no write. -/
theorem updater_delimiter_rule (g : Grid) (r c : ℕ) (month : List Char) :
    (specFirstMatch g r c →
      ((pyStrip (cellTextAt g r c)).contains ':' = true →
        upsert_reporting_month g month =
          setVal g (anchorOf g r c).1 (anchorOf g r c).2 (.s (rmFull month))) ∧
      ((pyStrip (cellTextAt g r c)).contains ':' = false →
        upsert_reporting_month g month =
          setVal g (anchorOf g r (c + 1)).1 (anchorOf g r (c + 1)).2 (.s month) ∧
        (anchorOf g r (c + 1) ≠ (r, c) →
          getVal (upsert_reporting_month g month) r c = getVal g r c))) ∧
    (∀ g' : Grid, set_reporting_month g' = Except.error ()) := by
  constructor
  · intro h
    have hf := findMatch_eq_some_of h
    have hstep : upsert_reporting_month g month = matchStep g r c month := by
      unfold upsert_reporting_month
      rw [hf]
    constructor
    · intro hcolon
      rw [hstep]
      unfold matchStep
      rw [hcolon]
      simp
    · intro hcolon
      have hstep2 : upsert_reporting_month g month =
          setVal g (anchorOf g r (c + 1)).1 (anchorOf g r (c + 1)).2 (.s month) := by
        rw [hstep]
        unfold matchStep
        rw [hcolon]
        simp
      refine ⟨hstep2, ?_⟩
      intro hne
      rw [hstep2]
      apply getVal_setVal_other
      rintro ⟨h1, h2⟩
      apply hne
      rw [Prod.ext_iff]
      exact ⟨h1.symm, h2.symm⟩
  · intro g'
    rfl

/-- Witness for `updater_delimiter_rule`: a same-cell delimiter match
(updated in place at its anchor) and a colon-free separate-cell match at
(2, 2) (written to the right), on concrete grids. -/
theorem updater_delimiter_rule_witness :
    (specFirstMatch cxGridDelim 1 1 ∧
      (pyStrip (cellTextAt cxGridDelim 1 1)).contains ':' = true ∧
      upsert_reporting_month cxGridDelim cxMonth =
        setVal cxGridDelim 1 1 (.s (rmFull cxMonth))) ∧
    (specFirstMatch cxGridRow2Col2 2 2 ∧
      (pyStrip (cellTextAt cxGridRow2Col2 2 2)).contains ':' = false ∧
      upsert_reporting_month cxGridRow2Col2 cxMonth =
        setVal cxGridRow2Col2 2 3 (.s cxMonth)) :=
  ⟨⟨by decide, by decide, by
    have h := ((updater_delimiter_rule cxGridDelim 1 1 cxMonth).1 (by decide)).1 (by decide)
    rw [h]
    decide⟩,
   ⟨by decide, by decide, by
    have h := (((updater_delimiter_rule cxGridRow2Col2 2 2 cxMonth).1 (by decide)).2
      (by decide)).1
    rw [h]
    decide⟩⟩

/-! ## C6: fallback to A2 when the label is absent -/

theorem updater_fallback_v1 (g : Grid) (month : List Char)
    (h : ∀ r, r ≤ 10 → ∀ c, c ≤ 30 → 1 ≤ r → 1 ≤ c → cellMatches g r c = false) :
    upsert_reporting_month g month =
      setVal g (anchorOf g 2 1).1 (anchorOf g 2 1).2 (.s (rmFull month)) ∧
    (∀ r c, ¬(r = (anchorOf g 2 1).1 ∧ c = (anchorOf g 2 1).2) →
      getVal (upsert_reporting_month g month) r c = getVal g r c) := by
  have hf : findMatch g = Option.none :=
    findMatch_eq_none_of (fun r c hr1 hr2 hc1 hc2 => h r hr2 c hc2 hr1 hc1)
  have h1 : upsert_reporting_month g month =
      setVal g (anchorOf g 2 1).1 (anchorOf g 2 1).2 (.s (rmFull month)) := by
    unfold upsert_reporting_month
    rw [hf]
  refine ⟨h1, ?_⟩
  intro r c hne
  rw [h1]
  exact getVal_setVal_other _ _ _ _ _ _ hne

/-- C6: the claim holds for the v1 updater but not for v2, where the
code defeats its own intent: `set_reporting_month` contains the very
fallback the claim describes (lines 82–84), yet its first statement calls
`prev_month_label()`, which raises `NameError` because the module never
imports `datetime` — so on a grid with no label the function raises
instead of writing the fallback.  Concretely, on the empty grid the v2
updater raises and writes nothing, while `upsert_reporting_month` writes
the full text to A2 and leaves every other cell (here (1, 1)) empty. -/
theorem reporting_month_fallback_bug :
    set_reporting_month cxGridEmpty = Except.error () ∧
    upsert_reporting_month cxGridEmpty cxMonth =
      setVal cxGridEmpty 2 1 (.s (rmFull cxMonth)) ∧
    getVal (upsert_reporting_month cxGridEmpty cxMonth) 2 1 = some (.s (rmFull cxMonth)) ∧
    getVal (upsert_reporting_month cxGridEmpty cxMonth) 1 1 = Option.none :=
  ⟨rfl, by decide, by decide, by decide⟩

/-! ## C7: exactly one merge-anchored write -/

/-- C7: with well-formed merge data every invocation of the updater is a
single cell write at a self-anchored coordinate — all other cells keep
their values — and the anchor of any cell inside a merged range is that
range's top-left corner. -/
theorem updater_single_write (g : Grid) (month : List Char) (hwf : mergesWFB g = true) :
    (∃ p v, upsert_reporting_month g month = setVal g p.1 p.2 (CVal.s v) ∧
      (∀ r c, ¬(r = p.1 ∧ c = p.2) →
        getVal (upsert_reporting_month g month) r c = getVal g r c) ∧
      p = anchorOf g p.1 p.2) ∧
    (∀ mr r c, mr ∈ g.merges → inRangeB mr r c = true →
      anchorOf g r c = (mr.minRow, mr.minCol)) := by
  constructor
  · cases hf : findMatch g with
    | none =>
      refine ⟨anchorOf g 2 1, rmFull month, ?_, ?_, (anchorOf_idem hwf).symm⟩
      · unfold upsert_reporting_month
        rw [hf]
      · intro r c hne
        have h1 : upsert_reporting_month g month =
            setVal g (anchorOf g 2 1).1 (anchorOf g 2 1).2 (.s (rmFull month)) := by
          unfold upsert_reporting_month
          rw [hf]
        rw [h1]
        exact getVal_setVal_other _ _ _ _ _ _ hne
    | some rc =>
      have hstep : upsert_reporting_month g month = matchStep g rc.1 rc.2 month := by
        unfold upsert_reporting_month
        rw [hf]
      by_cases hcolon : (pyStrip (cellTextAt g rc.1 rc.2)).contains ':' = true
      · refine ⟨anchorOf g rc.1 rc.2, rmFull month, ?_, ?_, (anchorOf_idem hwf).symm⟩
        · rw [hstep]
          unfold matchStep
          rw [hcolon]
          simp
        · intro r c hne
          rw [hstep]
          unfold matchStep
          rw [hcolon]
          simp only [if_true]
          exact getVal_setVal_other _ _ _ _ _ _ hne
      · rw [Bool.not_eq_true] at hcolon
        refine ⟨anchorOf g rc.1 (rc.2 + 1), month, ?_, ?_, (anchorOf_idem hwf).symm⟩
        · rw [hstep]
          unfold matchStep
          rw [hcolon]
          simp
        · intro r c hne
          rw [hstep]
          unfold matchStep
          rw [hcolon]
          simp only [Bool.false_eq_true, if_false]
          exact getVal_setVal_other _ _ _ _ _ _ hne
  · intro mr r c hmem hin
    exact anchorOf_mem hwf hmem hin

/-- Witness for `updater_single_write`: on a grid whose A1:B2 block is
merged, the anchor of cell B2 is A1, and the fallback write lands on a
single self-anchored cell. -/
theorem updater_single_write_witness :
    mergesWFB cxGridMergedA1B2 = true ∧
    anchorOf cxGridMergedA1B2 2 2 = (1, 1) ∧
    (∃ p v, upsert_reporting_month cxGridMergedA1B2 cxMonth =
        setVal cxGridMergedA1B2 p.1 p.2 (CVal.s v) ∧
      (∀ r c, ¬(r = p.1 ∧ c = p.2) →
        getVal (upsert_reporting_month cxGridMergedA1B2 cxMonth) r c =
          getVal cxGridMergedA1B2 r c) ∧
      p = anchorOf cxGridMergedA1B2 p.1 p.2) :=
  ⟨by decide,
   (updater_single_write cxGridMergedA1B2 cxMonth (by decide)).2 ⟨1, 1, 2, 2⟩ 2 2
     (by decide) (by decide),
   (updater_single_write cxGridMergedA1B2 cxMonth (by decide)).1⟩

/-! ## C8: idempotence -/

theorem cellMatches_congr {g g' : Grid} {r c : ℕ}
    (h : getVal g' r c = getVal g r c) : cellMatches g' r c = cellMatches g r c := by
  unfold cellMatches
  rw [h]

theorem cellTextAt_congr {g g' : Grid} {r c : ℕ}
    (h : getVal g' r c = getVal g r c) : cellTextAt g' r c = cellTextAt g r c := by
  unfold cellTextAt
  rw [h]

theorem ne_of_lexLt {x y : ℕ × ℕ} (h : lexLt x y) : ¬(x.1 = y.1 ∧ x.2 = y.2) := by
  unfold lexLt at h
  rintro ⟨h1, h2⟩
  omega

theorem lexLt_le_trans {x a : ℕ × ℕ} {r c : ℕ} (h : lexLt x a)
    (h1 : a.1 ≤ r) (h2 : a.2 ≤ c) : lexLt x (r, c) := by
  unfold lexLt at h ⊢
  simp only at *
  omega

theorem setVal_setVal_getVal (g : Grid) (r0 c0 : ℕ) (v : CVal) (r c : ℕ) :
    getVal (setVal (setVal g r0 c0 v) r0 c0 v) r c = getVal (setVal g r0 c0 v) r c := by
  by_cases h : r = r0 ∧ c = c0
  · obtain ⟨rfl, rfl⟩ := h
    rw [getVal_setVal_same, getVal_setVal_same]
  · rw [getVal_setVal_other _ _ _ _ _ _ h]

theorem cellMatches_false_outside {g : Grid} {r c : ℕ}
    (h : g.maxCol < c ∨ g.maxRow < r) : cellMatches g r c = false := by
  unfold cellMatches
  rcases h with h | h
  · rw [getVal_none_of_gt_maxCol h]
  · rw [getVal_none_of_gt_maxRow h]

/-- C8 counterexample: with the label at (2, 1), its right neighbour (2, 2)
merged into B1:B2 (anchor (1, 2)), and a replacement that itself contains
the label and a colon, the first run writes the replacement to (1, 2) and
the second run finds that cell first and rewrites it to a different text:
the updater is not idempotent. -/
theorem updater_not_idempotent :
    getVal (upsert_reporting_month
        (upsert_reporting_month cxGridMerge cxMonthLabel) cxMonthLabel) 1 2 ≠
      getVal (upsert_reporting_month cxGridMerge cxMonthLabel) 1 2 := by
  decide

theorem upsert_of_none {G : Grid} (month : List Char) (hf : findMatch G = Option.none) :
    upsert_reporting_month G month =
      setVal G (anchorOf G 2 1).1 (anchorOf G 2 1).2 (.s (rmFull month)) := by
  unfold upsert_reporting_month
  rw [hf]

theorem upsert_of_some_colon {G : Grid} {r c : ℕ} (month : List Char)
    (hf : findMatch G = some (r, c))
    (hcolon : (pyStrip (cellTextAt G r c)).contains ':' = true) :
    upsert_reporting_month G month =
      setVal G (anchorOf G r c).1 (anchorOf G r c).2 (.s (rmFull month)) := by
  unfold upsert_reporting_month
  rw [hf]
  show matchStep G r c month = _
  unfold matchStep
  rw [hcolon]
  simp

theorem upsert_of_some_nocolon {G : Grid} {r c : ℕ} (month : List Char)
    (hf : findMatch G = some (r, c))
    (hcolon : (pyStrip (cellTextAt G r c)).contains ':' = false) :
    upsert_reporting_month G month =
      setVal G (anchorOf G r (c + 1)).1 (anchorOf G r (c + 1)).2 (.s month) := by
  unfold upsert_reporting_month
  rw [hf]
  show matchStep G r c month = _
  unfold matchStep
  rw [hcolon]
  simp

theorem idem_full_write (g : Grid) (month : List Char) (a : ℕ × ℕ)
    (ha : a = anchorOf g a.1 a.2)
    (h1 : upsert_reporting_month g month = setVal g a.1 a.2 (.s (rmFull month)))
    (hb1 : 1 ≤ a.1) (hb2 : a.1 ≤ 10) (hb3 : 1 ≤ a.2) (hb4 : a.2 ≤ 30)
    (hprior : ∀ r', r' ≤ 10 → ∀ c', c' ≤ 30 → 1 ≤ r' → 1 ≤ c' → lexLt (r', c') a →
      cellMatches g r' c' = false) :
    ∀ r c, getVal (upsert_reporting_month (upsert_reporting_month g month) month) r c =
      getVal (upsert_reporting_month g month) r c := by
  have hget : getVal (upsert_reporting_month g month) a.1 a.2 = some (.s (rmFull month)) := by
    rw [h1]
    exact getVal_setVal_same _ _ _ _
  have hmatch : cellMatches (upsert_reporting_month g month) a.1 a.2 = true := by
    unfold cellMatches
    rw [hget]
    exact matches_rmFull month
  have hspec : specFirstMatch (upsert_reporting_month g month) a.1 a.2 := by
    refine ⟨hb1, hb2, hb3, hb4, hmatch, ?_⟩
    intro r' hr10 c' hc30 hr1 hc1 hlex
    have hne := ne_of_lexLt hlex
    simp only at hne
    have heq : getVal (upsert_reporting_month g month) r' c' = getVal g r' c' := by
      rw [h1]
      exact getVal_setVal_other _ _ _ _ _ _ hne
    rw [cellMatches_congr heq]
    exact hprior r' hr10 c' hc30 hr1 hc1 hlex
  have hf2 : findMatch (upsert_reporting_month g month) = some (a.1, a.2) :=
    findMatch_eq_some_of hspec
  have htext : cellTextAt (upsert_reporting_month g month) a.1 a.2 = rmFull month := by
    unfold cellTextAt
    rw [hget]
  have hstep2 := upsert_of_some_colon month hf2
    (by rw [htext]; exact colon_in_strip_rmFull month)
  have hanch2 : anchorOf (upsert_reporting_month g month) a.1 a.2 = a := by
    rw [h1, anchorOf_setVal]
    exact ha.symm
  intro r c
  rw [hstep2, hanch2, h1]
  exact setVal_setVal_getVal g a.1 a.2 _ r c

/-- C8 (amended): the v1 updater is idempotent provided the merge ranges
are well-formed and pairwise disjoint, the replacement text does not
itself contain the label, and — when the first match lacks a colon — the
anchor of the cell to its right is not the matched cell itself.  The v2
updater `set_reporting_month` raises `NameError` on every invocation and
never mutates the grid, so re-running it trivially changes nothing. -/
theorem updater_idempotent :
    (∀ (g : Grid) (month : List Char), mergesWFB g = true →
      isSubstr labelLower (lowerList month) = false → sepOKB g = true →
      ∀ r c, getVal (upsert_reporting_month (upsert_reporting_month g month) month) r c =
        getVal (upsert_reporting_month g month) r c) ∧
    (∀ g : Grid, set_reporting_month g = Except.error ()) := by
  refine ⟨?_, fun g => rfl⟩
  intro g month hwf hm hsep
  cases hf : findMatch g with
  | none =>
    have ha_le := anchorOf_le g 2 1
    have ha_pos := anchorOf_pos (r := 2) (c := 1) hwf (by omega) (by omega)
    apply idem_full_write g month (anchorOf g 2 1) (anchorOf_idem hwf).symm
      (upsert_of_none month hf) ha_pos.1 (by omega) ha_pos.2 (by omega)
    intro r' hr10 c' hc30 hr1 hc1 hlex
    by_cases hcr : r' ≤ g.maxRow
    · by_cases hcc : c' ≤ g.maxCol
      · exact findMatch_none_sound hf r' c' hr1 (by omega) hc1 (by omega)
      · exact cellMatches_false_outside (Or.inl (by omega))
    · exact cellMatches_false_outside (Or.inr (by omega))
  | some rc =>
    obtain ⟨r, c⟩ := rc
    obtain ⟨s1, s2, s3, s4, s5, s6⟩ := findMatch_sound hf
    by_cases hcolon : (pyStrip (cellTextAt g r c)).contains ':' = true
    · have ha_le := anchorOf_le g r c
      have ha_pos := anchorOf_pos hwf s1 s3
      apply idem_full_write g month (anchorOf g r c) (anchorOf_idem hwf).symm
        (upsert_of_some_colon month hf hcolon) ha_pos.1 (by omega) ha_pos.2 (by omega)
      intro r' hr10 c' hc30 hr1 hc1 hlex
      by_cases hcc : c' ≤ g.maxCol
      · exact s6 r' c' hr1 hc1 (by omega) (lexLt_le_trans hlex ha_le.1 ha_le.2)
      · exact cellMatches_false_outside (Or.inl (by omega))
    · rw [Bool.not_eq_true] at hcolon
      have hsep2 : anchorOf g r (c + 1) ≠ (r, c) := by
        unfold sepOKB at hsep
        rw [hf] at hsep
        replace hsep : ((pyStrip (cellTextAt g r c)).contains ':' ||
            decide (anchorOf g r (c + 1) ≠ (r, c))) = true := hsep
        rw [hcolon] at hsep
        simpa using hsep
      have hne : ¬(r = (anchorOf g r (c + 1)).1 ∧ c = (anchorOf g r (c + 1)).2) := by
        rintro ⟨h1, h2⟩
        exact hsep2 (Prod.ext h1.symm h2.symm)
      have h1 := upsert_of_some_nocolon month hf hcolon
      have hgetrc : getVal (upsert_reporting_month g month) r c = getVal g r c := by
        rw [h1]
        exact getVal_setVal_other _ _ _ _ _ _ hne
      have hmatch1 : cellMatches (upsert_reporting_month g month) r c = true := by
        rw [cellMatches_congr hgetrc]
        exact s5
      have hspec : specFirstMatch (upsert_reporting_month g month) r c := by
        refine ⟨s1, by omega, s3, by omega, hmatch1, ?_⟩
        intro r' hr10 c' hc30 hr1 hc1 hlex
        by_cases hb : r' = (anchorOf g r (c + 1)).1 ∧ c' = (anchorOf g r (c + 1)).2
        · obtain ⟨hb1, hb2⟩ := hb
          subst hb1
          subst hb2
          unfold cellMatches
          rw [h1, getVal_setVal_same]
          exact hm
        · have heq : getVal (upsert_reporting_month g month) r' c' = getVal g r' c' := by
            rw [h1]
            exact getVal_setVal_other _ _ _ _ _ _ hb
          rw [cellMatches_congr heq]
          by_cases hcc : c' ≤ g.maxCol
          · exact s6 r' c' hr1 hc1 (by omega) hlex
          · exact cellMatches_false_outside (Or.inl (by omega))
      have hf2 : findMatch (upsert_reporting_month g month) = some (r, c) :=
        findMatch_eq_some_of hspec
      have htext1 : cellTextAt (upsert_reporting_month g month) r c = cellTextAt g r c :=
        cellTextAt_congr hgetrc
      have hstep2 := upsert_of_some_nocolon month hf2 (by rw [htext1]; exact hcolon)
      have hanch2 : anchorOf (upsert_reporting_month g month) r (c + 1) =
          anchorOf g r (c + 1) := by
        rw [h1, anchorOf_setVal]
      intro r0 c0
      rw [hstep2, hanch2, h1]
      exact setVal_setVal_getVal g _ _ _ r0 c0

/-- Witness for `updater_idempotent` on a grid whose label cell already
contains the month after a colon. -/
theorem updater_idempotent_witness :
    (mergesWFB cxGridDelim = true ∧
      isSubstr labelLower (lowerList cxMonth) = false ∧
      sepOKB cxGridDelim = true) ∧
    getVal (upsert_reporting_month (upsert_reporting_month cxGridDelim cxMonth) cxMonth) 1 1 =
      getVal (upsert_reporting_month cxGridDelim cxMonth) 1 1 :=
  ⟨⟨by decide, by decide, by decide⟩,
   updater_idempotent.1 cxGridDelim cxMonth (by decide) (by decide) (by decide) 1 1⟩

/-! ## C9: fail fast on missing CSVs -/

/-- C9: when at least one required CSV is unresolved, each of the three
entry points exits with code 1 before the workbook is opened, so the
workbook file on disk is untouched. -/
theorem main_fail_fast :
    (∀ (found : String → Bool) (wbE oOk sOk : Bool),
      (∃ k ∈ belfius_sheet_keys, found k = false) →
      main_belfius found wbE oOk sOk = ⟨1, false, false⟩) ∧
    (∀ (found : String → Bool) (wbE oOk sOk : Bool),
      (∃ k ∈ bancontact_sheet_keys, found k = false) →
      main_bancontact found wbE oOk sOk = ⟨1, false, false⟩) ∧
    (∀ (found : String → Bool) (wbE sOk : Bool),
      (∃ k ∈ v2_csv_names, found k = false) →
      main_v2 found wbE sOk = ⟨1, false, false⟩) := by
  refine ⟨?_, ?_, ?_⟩
  · intro found wbE oOk sOk h
    obtain ⟨k, hk, hfk⟩ := h
    have hmem : k ∈ belfius_sheet_keys.filter (fun k => !found k) :=
      List.mem_filter.mpr ⟨hk, by rw [hfk]; rfl⟩
    have hne := List.ne_nil_of_mem hmem
    unfold main_belfius
    rw [if_pos (by simp [List.isEmpty_iff, hne])]
  · intro found wbE oOk sOk h
    obtain ⟨k, hk, hfk⟩ := h
    have hmem : k ∈ bancontact_sheet_keys.filter (fun k => !found k) :=
      List.mem_filter.mpr ⟨hk, by rw [hfk]; rfl⟩
    have hne := List.ne_nil_of_mem hmem
    unfold main_bancontact
    rw [if_pos (by simp [List.isEmpty_iff, hne])]
  · intro found wbE sOk h
    obtain ⟨k, hk, hfk⟩ := h
    have hmem : k ∈ v2_csv_names.filter (fun k => !found k) :=
      List.mem_filter.mpr ⟨hk, by rw [hfk]; rfl⟩
    have hne := List.ne_nil_of_mem hmem
    unfold main_v2
    rw [if_pos (by simp [List.isEmpty_iff, hne])]

/-- Witness for `main_fail_fast`: a resolver that finds nothing. -/
theorem main_fail_fast_witness :
    ((fun _ => false : String → Bool) "Data_Fraud" = false ∧
      "Data_Fraud" ∈ belfius_sheet_keys) ∧
    main_belfius (fun _ => false) true true true = ⟨1, false, false⟩ ∧
    main_bancontact (fun _ => false) true true true = ⟨1, false, false⟩ ∧
    main_v2 (fun _ => false) true true = ⟨1, false, false⟩ :=
  ⟨⟨rfl, by decide⟩,
   main_fail_fast.1 (fun _ => false) true true true ⟨"Data_Fraud", by decide, rfl⟩,
   main_fail_fast.2.1 (fun _ => false) true true true ⟨"Data_Metrics", by decide, rfl⟩,
   main_fail_fast.2.2 (fun _ => false) true true ⟨"Metrics.csv", by decide, rfl⟩⟩

/-! ## C10: write_dataframe_to_sheet -/

theorem find?_filter_of_imp {α : Type} (l : List α) (p q : α → Bool)
    (h : ∀ e, p e = true → q e = true) :
    (l.filter q).find? p = l.find? p := by
  induction l with
  | nil => rfl
  | cons a t ih =>
    by_cases hp : p a = true
    · have hq := h a hp
      rw [List.filter_cons, if_pos hq, List.find?_cons, hp, List.find?_cons, hp]
    · rw [Bool.not_eq_true] at hp
      by_cases hq : q a = true
      · rw [List.filter_cons, if_pos hq, List.find?_cons, hp, List.find?_cons, hp]
        simp only [Bool.false_eq_true, if_false]
        exact ih
      · rw [Bool.not_eq_true] at hq
        rw [List.filter_cons, if_neg (by rw [hq]; exact Bool.false_ne_true),
          List.find?_cons, hp]
        simp only [Bool.false_eq_true, if_false]
        exact ih

theorem getCellsVal_cons (e : (ℕ × ℕ) × CVal) (cells : List ((ℕ × ℕ) × CVal)) (r c : ℕ) :
    getCellsVal (e :: cells) r c =
      if r = e.1.1 ∧ c = e.1.2 then some e.2 else getCellsVal cells r c := by
  unfold getCellsVal
  rw [List.find?_cons]
  by_cases h : r = e.1.1 ∧ c = e.1.2
  · obtain ⟨h1, h2⟩ := h
    have hb : (e.1.1 == r && e.1.2 == c) = true := by
      rw [Bool.and_eq_true, beq_iff_eq, beq_iff_eq]
      exact ⟨h1.symm, h2.symm⟩
    rw [hb, if_pos ⟨h1, h2⟩]
  · have hb : (e.1.1 == r && e.1.2 == c) = false := by
      rw [Bool.and_eq_false_iff]
      by_cases h1 : e.1.1 = r
      · right
        rw [beq_eq_false_iff_ne]
        intro h2
        exact h ⟨h1.symm, h2.symm⟩
      · left
        rw [beq_eq_false_iff_ne]
        exact h1
    rw [hb, if_neg h]

theorem getCellsVal_setSCell (cells : List ((ℕ × ℕ) × CVal)) (r c : ℕ) (v : Option CVal)
    (r' c' : ℕ) :
    getCellsVal (setSCell cells r c v) r' c' =
      if r' = r ∧ c' = c then v else getCellsVal cells r' c' := by
  cases v with
  | some w =>
    show getCellsVal (((r, c), w) :: cells) r' c' = _
    rw [getCellsVal_cons]
  | none =>
    show getCellsVal (cells.filter (fun e => !(e.1.1 == r && e.1.2 == c))) r' c' = _
    by_cases h : r' = r ∧ c' = c
    · obtain ⟨rfl, rfl⟩ := h
      rw [if_pos ⟨rfl, rfl⟩]
      unfold getCellsVal
      rw [List.find?_eq_none.mpr]
      intro e he
      have hkeep := (List.mem_filter.mp he).2
      intro hp
      rw [hp] at hkeep
      cases hkeep
    · rw [if_neg h]
      unfold getCellsVal
      rw [find?_filter_of_imp]
      intro e hp
      rw [Bool.and_eq_true, beq_iff_eq, beq_iff_eq] at hp
      simp only [Bool.not_eq_true', Bool.and_eq_false_iff]
      by_cases h1 : e.1.1 = r
      · right
        rw [beq_eq_false_iff_ne]
        intro h2
        exact h ⟨hp.1.symm.trans h1, hp.2.symm.trans h2⟩
      · left
        rw [beq_eq_false_iff_ne]
        exact h1

theorem getCellsVal_applyWrites (ws : List ((ℕ × ℕ) × Option CVal)) :
    ∀ (cells : List ((ℕ × ℕ) × CVal)) (r c : ℕ),
      getCellsVal (applyWrites cells ws) r c =
        match lookupLast? ws r c with
        | some v => v
        | Option.none => getCellsVal cells r c := by
  induction ws with
  | nil =>
    intro cells r c
    rfl
  | cons e t ih =>
    intro cells r c
    show getCellsVal (applyWrites (setSCell cells e.1.1 e.1.2 e.2) t) r c = _
    rw [ih]
    show _ = (match (match lookupLast? t r c with
      | some v => some v
      | Option.none => if r = e.1.1 ∧ c = e.1.2 then some e.2 else Option.none) with
      | some v => v
      | Option.none => getCellsVal cells r c)
    cases hl : lookupLast? t r c with
    | some v => rfl
    | none =>
      simp only
      rw [getCellsVal_setSCell]
      by_cases h : r = e.1.1 ∧ c = e.1.2
      · rw [if_pos h, if_pos h]
      · rw [if_neg h, if_neg h]

theorem lookupLast?_append (ws1 ws2 : List ((ℕ × ℕ) × Option CVal)) (r c : ℕ) :
    lookupLast? (ws1 ++ ws2) r c =
      match lookupLast? ws2 r c with
      | some v => some v
      | Option.none => lookupLast? ws1 r c := by
  induction ws1 with
  | nil =>
    show lookupLast? ws2 r c = _
    cases lookupLast? ws2 r c with
    | some v => rfl
    | none => rfl
  | cons e t ih =>
    have hrhs : lookupLast? (e :: t) r c = (match lookupLast? t r c with
      | some v => some v
      | Option.none => if r = e.1.1 ∧ c = e.1.2 then some e.2 else Option.none) := rfl
    show (match lookupLast? (t ++ ws2) r c with
      | some v => some v
      | Option.none => if r = e.1.1 ∧ c = e.1.2 then some e.2 else Option.none) = _
    rw [ih, hrhs]
    cases lookupLast? ws2 r c with
    | some v => rfl
    | none =>
      cases lookupLast? t r c with
      | some v => rfl
      | none => rfl

theorem lookupLast?_headerCells_none (cols : List (List Char)) :
    ∀ (j r c : ℕ), (r ≠ 1 ∨ c < j ∨ j + cols.length ≤ c) →
      lookupLast? (headerCells j cols) r c = Option.none := by
  induction cols with
  | nil =>
    intro j r c h
    rfl
  | cons col rest ih =>
    intro j r c h
    have hih : r ≠ 1 ∨ c < j + 1 ∨ j + 1 + rest.length ≤ c := by
      rcases h with h | h | h
      · exact Or.inl h
      · omega
      · simp only [List.length_cons] at h
        omega
    show (match lookupLast? (headerCells (j + 1) rest) r c with
      | some v => some v
      | Option.none => if r = 1 ∧ c = j then some (some (.s col)) else Option.none) = _
    rw [ih (j + 1) r c hih]
    show (if r = 1 ∧ c = j then some (some (CVal.s col)) else Option.none) = Option.none
    rw [if_neg]
    rintro ⟨h1, h2⟩
    rcases h with h | h | h
    · exact h h1
    · omega
    · simp only [List.length_cons] at h
      omega

theorem lookupLast?_headerCells_some (cols : List (List Char)) :
    ∀ (j k : ℕ) (col : List Char), cols.get? k = some col →
      lookupLast? (headerCells j cols) 1 (j + k) = some (some (.s col)) := by
  induction cols with
  | nil =>
    intro j k col h
    cases h
  | cons col0 rest ih =>
    intro j k col h
    show (match lookupLast? (headerCells (j + 1) rest) 1 (j + k) with
      | some v => some v
      | Option.none => if 1 = 1 ∧ j + k = j then some (some (.s col0)) else Option.none) = _
    cases k with
    | zero =>
      rw [lookupLast?_headerCells_none rest (j + 1) 1 (j + 0) (by omega)]
      rw [List.get?_cons_zero] at h
      injection h with h
      subst h
      rw [if_pos ⟨rfl, by omega⟩]
    | succ k' =>
      rw [List.get?_cons_succ] at h
      have h2 := ih (j + 1) k' col h
      rw [show j + 1 + k' = j + (k' + 1) by omega] at h2
      rw [h2]

theorem lookupLast?_rowCells_none (r : ℕ) (row : List (Option CVal)) :
    ∀ (c0 r' c' : ℕ), (r' ≠ r ∨ c' < c0 ∨ c0 + row.length ≤ c') →
      lookupLast? (rowCells r c0 row) r' c' = Option.none := by
  induction row with
  | nil =>
    intro c0 r' c' h
    rfl
  | cons v rest ih =>
    intro c0 r' c' h
    have hih : r' ≠ r ∨ c' < c0 + 1 ∨ c0 + 1 + rest.length ≤ c' := by
      rcases h with h | h | h
      · exact Or.inl h
      · omega
      · simp only [List.length_cons] at h
        omega
    show (match lookupLast? (rowCells r (c0 + 1) rest) r' c' with
      | some w => some w
      | Option.none => if r' = r ∧ c' = c0 then some v else Option.none) = _
    rw [ih (c0 + 1) r' c' hih]
    show (if r' = r ∧ c' = c0 then some v else Option.none) = Option.none
    rw [if_neg]
    rintro ⟨h1, h2⟩
    rcases h with h | h | h
    · exact h h1
    · omega
    · simp only [List.length_cons] at h
      omega

theorem lookupLast?_rowCells_some (r : ℕ) (row : List (Option CVal)) :
    ∀ (c0 k : ℕ) (v : Option CVal), row.get? k = some v →
      lookupLast? (rowCells r c0 row) r (c0 + k) = some v := by
  induction row with
  | nil =>
    intro c0 k v h
    cases h
  | cons v0 rest ih =>
    intro c0 k v h
    show (match lookupLast? (rowCells r (c0 + 1) rest) r (c0 + k) with
      | some w => some w
      | Option.none => if r = r ∧ c0 + k = c0 then some v0 else Option.none) = _
    cases k with
    | zero =>
      rw [lookupLast?_rowCells_none r rest (c0 + 1) r (c0 + 0) (by omega)]
      rw [List.get?_cons_zero] at h
      injection h with h
      subst h
      rw [if_pos ⟨rfl, by omega⟩]
    | succ k' =>
      rw [List.get?_cons_succ] at h
      have h2 := ih (c0 + 1) k' v h
      rw [show c0 + 1 + k' = c0 + (k' + 1) by omega] at h2
      rw [h2]

theorem lookupLast?_dataCells_none (rows : List (List (Option CVal))) :
    ∀ (r0 r c : ℕ),
      (∀ i row, rows.get? i = some row → ¬(r = r0 + i ∧ 1 ≤ c ∧ c < 1 + row.length)) →
      lookupLast? (dataCells r0 rows) r c = Option.none := by
  induction rows with
  | nil =>
    intro r0 r c h
    rfl
  | cons row rest ih =>
    intro r0 r c h
    show lookupLast? (rowCells r0 1 row ++ dataCells (r0 + 1) rest) r c = _
    rw [lookupLast?_append]
    rw [ih (r0 + 1) r c (fun i row' hi => by
      have h2 := h (i + 1) row' (by rw [List.get?_cons_succ]; exact hi)
      rintro ⟨hh1, hh2, hh3⟩
      exact h2 ⟨by omega, hh2, hh3⟩)]
    simp only
    apply lookupLast?_rowCells_none
    have h0 := h 0 row (List.get?_cons_zero)
    by_cases hr : r = r0
    · subst hr
      by_cases hc : c < 1
      · omega
      · right
        right
        by_cases hcl : c < 1 + row.length
        · exact absurd ⟨by omega, by omega, hcl⟩ h0
        · omega
    · exact Or.inl hr

theorem lookupLast?_dataCells_some (rows : List (List (Option CVal))) :
    ∀ (r0 i : ℕ) (row : List (Option CVal)) (k : ℕ) (v : Option CVal),
      rows.get? i = some row → row.get? k = some v →
      lookupLast? (dataCells r0 rows) (r0 + i) (1 + k) = some v := by
  induction rows with
  | nil =>
    intro r0 i row k v h
    cases h
  | cons row0 rest ih =>
    intro r0 i row k v hi hk
    show lookupLast? (rowCells r0 1 row0 ++ dataCells (r0 + 1) rest) (r0 + i) (1 + k) = _
    rw [lookupLast?_append]
    cases i with
    | zero =>
      rw [lookupLast?_dataCells_none rest (r0 + 1) (r0 + 0) (1 + k)
        (fun i' row' hi' => by rintro ⟨hh1, _, _⟩; omega)]
      simp only
      rw [List.get?_cons_zero] at hi
      injection hi with hi
      subst hi
      rw [show r0 + 0 = r0 by omega]
      exact lookupLast?_rowCells_some r0 _ 1 k v hk
    | succ i' =>
      rw [List.get?_cons_succ] at hi
      have h2 := ih (r0 + 1) i' row k v hi hk
      rw [show r0 + 1 + i' = r0 + (i' + 1) by omega] at h2
      rw [h2]

/-- C10: `write_dataframe_to_sheet` first clears every existing row of the
target sheet, then leaves exactly the column names in row 1 and the frame's
rows in rows 2..n+1 (all other cells empty, so no stale data survives),
and always leaves the sheet hidden — even if it was previously visible. -/
theorem write_df_spec (existing : Option Sheet) (df : DataFrame) :
    (write_dataframe_to_sheet existing df).hidden = true ∧
    (∀ j col, df.columns.get? j = some col →
      getSVal (write_dataframe_to_sheet existing df) 1 (1 + j) = some (.s col)) ∧
    (∀ i row k v, df.rows.get? i = some row → row.get? k = some v →
      getSVal (write_dataframe_to_sheet existing df) (2 + i) (1 + k) = v) ∧
    (∀ r c, ¬(r = 1 ∧ 1 ≤ c ∧ c < 1 + df.columns.length) →
      (∀ i row, df.rows.get? i = some row → ¬(r = 2 + i ∧ 1 ≤ c ∧ c < 1 + row.length)) →
      getSVal (write_dataframe_to_sheet existing df) r c = Option.none) := by
  have hc : (write_dataframe_to_sheet existing df).cells =
      applyWrites [] (headerCells 1 df.columns ++ dataCells 2 df.rows) := by
    cases existing <;> rfl
  have hbase : ∀ r c, getSVal (write_dataframe_to_sheet existing df) r c =
      (match (match lookupLast? (dataCells 2 df.rows) r c with
        | some v => some v
        | Option.none => lookupLast? (headerCells 1 df.columns) r c) with
        | some v => v
        | Option.none => getCellsVal [] r c) := by
    intro r c
    show getCellsVal (write_dataframe_to_sheet existing df).cells r c = _
    rw [hc, getCellsVal_applyWrites, lookupLast?_append]
  refine ⟨?_, ?_, ?_, ?_⟩
  · cases existing <;> rfl
  · intro j col hj
    rw [hbase]
    rw [lookupLast?_dataCells_none df.rows 2 1 (1 + j)
      (fun i row hi => by rintro ⟨h1, _, _⟩; omega)]
    rw [lookupLast?_headerCells_some df.columns 1 j col hj]
  · intro i row k v hi hk
    rw [hbase]
    rw [lookupLast?_dataCells_some df.rows 2 i row k v hi hk]
  · intro r c h1 h2
    rw [hbase]
    rw [lookupLast?_dataCells_none df.rows 2 r c h2]
    have hcond : r ≠ 1 ∨ c < 1 ∨ 1 + df.columns.length ≤ c := by
      by_cases hr : r = 1
      · subst hr
        by_cases hc1 : 1 ≤ c
        · right
          right
          by_cases hc2 : c < 1 + df.columns.length
          · exact absurd ⟨rfl, hc1, hc2⟩ h1
          · omega
        · right
          left
          omega
      · exact Or.inl hr
    rw [lookupLast?_headerCells_none df.columns 1 r c hcond]
    rfl

/-- Witness for `write_df_spec`: a previously visible sheet with a stale
cell at (5, 5), refreshed from a 2 × 2 frame with one empty cell. -/
theorem write_df_spec_witness :
    wSheetVisible.hidden = false ∧
    (write_dataframe_to_sheet (some wSheetVisible) wDF).hidden = true ∧
    (wDF.columns.get? 1 = some "B".data ∧
      getSVal (write_dataframe_to_sheet (some wSheetVisible) wDF) 1 2 = some (.s "B".data)) ∧
    (wDF.rows.get? 0 = some [some (.s "x".data), Option.none] ∧
      getSVal (write_dataframe_to_sheet (some wSheetVisible) wDF) 2 2 = Option.none) ∧
    getSVal (write_dataframe_to_sheet (some wSheetVisible) wDF) 5 5 = Option.none :=
  ⟨rfl,
   (write_df_spec (some wSheetVisible) wDF).1,
   ⟨rfl, (write_df_spec (some wSheetVisible) wDF).2.1 1 "B".data rfl⟩,
   ⟨rfl, (write_df_spec (some wSheetVisible) wDF).2.2.1 0 _ 1 Option.none rfl rfl⟩,
   (write_df_spec (some wSheetVisible) wDF).2.2.2 5 5 (by decide)
     (by
      intro i row hi
      rintro ⟨h1, _, _⟩
      have hi3 : i = 3 := by omega
      subst hi3
      replace hi : (Option.none : Option (List (Option CVal))) = some row := hi
      cases hi)⟩
